import Mathlib

/-!
Verification of the consolidation engine of paperless-ai-extended.

The JavaScript sources are embedded shallowly:

* JS strings are modelled as lists of UTF-16 code units (`Str := List Char`);
  `String.prototype.toLowerCase` becomes a character map.
* JS numbers are modelled as rationals (`ℚ`) where similarity scores and
  thresholds occur, and as integers for ids, counts and timestamps.
* The stateful pieces (the memoization cache, the performance counters, the
  external document store) are modelled by explicit state passing.
* Fallible external calls are modelled by `Option`-tagged error results so
  that a thrown-and-caught exception leaves the already-performed mutations
  of the external store in place.

Definitions follow the source files

* services/enhanced-consolidation-service.js (EnhancedConsolidationService)
* services/consolidationService.js (ConsolidationService)
* services/tagMergerService.js (TagMergerService)

function by function; each definition names the source symbol it embeds.
-/

/-- JS strings as sequences of code units. -/
abbrev Str := List Char

/-- `String.prototype.toLowerCase`, modelled on code units. -/
def toLowerStr (s : Str) : Str := s.map Char.toLower

/-- Lexicographic code-unit comparison underlying the default JS
`Array.prototype.sort` on two strings: `charListLe a b = true` iff the
sorted pair is `[a, b]`. -/
def charListLe : Str → Str → Bool
  | [], _ => true
  | _ :: _, [] => false
  | c :: cs, d :: ds => if c = d then charListLe cs ds else decide (c < d)

/-!
## Similarity scorer

`levenshteinDistance` (enhanced-consolidation-service.js lines 147-171 and
consolidationService.js lines 664-688, identical code) fills a DP table
`track` with `track[j][i] = ` edit distance between the first `i` code units
of `str1` and the first `j` of `str2`.  The table entries satisfy exactly
the recurrence below, which we take as the definition; `track j i` is the
value the filled table holds at row `j`, column `i`.
-/

/-- The DP table of `levenshteinDistance`: `track s1 s2 j i` is `track[j][i]`
after the fill loops, i.e. the edit distance between `s1.take i` and
`s2.take j`.  The three `min` arguments are, in source order, deletion,
insertion and substitution. -/
def track (s1 s2 : Str) : Nat → Nat → Nat
  | 0, i => i
  | j + 1, 0 => j + 1
  | j + 1, i + 1 =>
    let indicator : Nat := if s1.getD i ' ' = s2.getD j ' ' then 0 else 1
    min (track s1 s2 (j + 1) i + 1)
      (min (track s1 s2 j (i + 1) + 1) (track s1 s2 j i + indicator))
  termination_by j i => (j, i)

/-- `levenshteinDistance(str1, str2)` returns `track[str2.length][str1.length]`. -/
def levenshteinDistance (s1 s2 : Str) : Nat := track s1 s2 s2.length s1.length

/-- `ConsolidationService.calculateSimilarity` (consolidationService.js lines
651-656): normalized Levenshtein similarity
`(longerLength - distance) / longerLength`, and `1.0` for two empty strings.
This is also the cache-miss computation of
`EnhancedConsolidationService.calculateLevenshteinSimilarity` (lines 129-133). -/
def calculateSimilarity (s1 s2 : Str) : ℚ :=
  let longerLength := max s1.length s2.length
  if longerLength = 0 then 1
  else ((longerLength : ℚ) - (levenshteinDistance s1 s2 : ℚ)) / (longerLength : ℚ)

/-!
## Cache and performance state

`EnhancedConsolidationService` keeps `this.cache` (a `Map`) and
`this.performanceStats` (startTime, endTime, memoryUsage, cacheHits,
cacheAttempts, comparisons).  Both are per-run state; we bundle them in one
record threaded explicitly.  The `memoryUsage` counter of the JS stats
object is initialized to 0 and never read (`getPerformanceStats` samples
`process.memoryUsage()` afresh), so it is not carried.  JS `null` becomes
`none`.  The `Map` becomes an association list: `Map.get`/`Map.has` is
`List.lookup`, and `Map.set` of a key that is absent (the only way the code
inserts) is modelled by consing the new entry.
-/

structure SimState where
  cache : List (Str × ℚ)
  startTime : Option Int
  endTime : Option Int
  cacheHits : Nat
  cacheAttempts : Nat
  comparisons : Nat
deriving DecidableEq, Repr

/-- The state built by the constructor (lines 19-27). -/
def freshSimState : SimState :=
  { cache := [], startTime := none, endTime := none,
    cacheHits := 0, cacheAttempts := 0, comparisons := 0 }

/-- `resetPerformance` (lines 41-51): replaces `performanceStats` with the
all-null record and clears the cache. -/
def resetPerformance (_st : SimState) : SimState := freshSimState

/-- The separator of `getCacheKey`. -/
def cacheKeySep : Str := "::".data

/-- `getCacheKey` (lines 79-82): `[str1, str2].sort().join('::')`. -/
def getCacheKey (str1 str2 : Str) : Str :=
  if charListLe str1 str2 then str1 ++ cacheKeySep ++ str2 else str2 ++ cacheKeySep ++ str1

/-- `calculateDiceCoefficient` (lines 90-109).  The call into the external
string-similarity library (line 103) is the parameter `dice`, a black box
producing the Dice coefficient of two strings. -/
def calculateDiceCoefficient (dice : Str → Str → ℚ) (str1 str2 : Str) (st : SimState) :
    ℚ × SimState :=
  let st1 := { st with comparisons := st.comparisons + 1,
                       cacheAttempts := st.cacheAttempts + 1 }
  let cacheKey := getCacheKey str1 str2
  match st1.cache.lookup cacheKey with
  | some v => (v, { st1 with cacheHits := st1.cacheHits + 1 })
  | none =>
    let similarity := dice str1 str2
    (similarity, { st1 with cache := (cacheKey, similarity) :: st1.cache })

/-- `calculateLevenshteinSimilarity` (lines 117-139): the same caching
wrapper around the normalized Levenshtein computation; the
`longerLength === 0` early return (line 130) bypasses the cache insert. -/
def calculateLevenshteinSimilarity (str1 str2 : Str) (st : SimState) : ℚ × SimState :=
  let st1 := { st with comparisons := st.comparisons + 1,
                       cacheAttempts := st.cacheAttempts + 1 }
  let cacheKey := getCacheKey str1 str2
  match st1.cache.lookup cacheKey with
  | some v => (v, { st1 with cacheHits := st1.cacheHits + 1 })
  | none =>
    if max str1.length str2.length = 0 then (1, st1)
    else
      let similarity := calculateSimilarity str1 str2
      (similarity, { st1 with cache := (cacheKey, similarity) :: st1.cache })

/-- Replay a list of argument pairs through `calculateDiceCoefficient`,
threading the cache state. -/
def runDiceCalls (dice : Str → Str → ℚ) : List (Str × Str) → SimState → SimState
  | [], st => st
  | (a, b) :: ps, st => runDiceCalls dice ps (calculateDiceCoefficient dice a b st).2

/-- The unordered-pair normal form implicit in `getCacheKey`: the pair in
JS sort order. -/
def sortPair (p : Str × Str) : Str × Str := if charListLe p.1 p.2 then p else (p.2, p.1)

/-!
## Entities and grouping
-/

/-- A named entity (tag, correspondent or document type).  `document_count`
is `none` when the JS field is absent or undefined; the code only reads it
as `(e.document_count || 0)`. -/
structure Entity where
  id : Int
  name : Str
  document_count : Option Int
deriving DecidableEq, Repr

/-- `(tag.document_count || 0)`; note `0 || 0 = 0`, so `getD 0` is exact. -/
def docCount (e : Entity) : Int := e.document_count.getD 0

/-- The inner loop of `findSimilarEntities` (lines 237-250): scan the
entities after the seed, skip processed indices, score the seed against
each candidate and collect those with `similarity >= threshold`.  The
scorer is kept abstract (`score` with threaded state `σ`); the service
instantiates it with the cached Dice scorer. -/
def scanSimilar {σ : Type} (score : Entity → Entity → σ → ℚ × σ) (threshold : ℚ)
    (seed : Entity) : List (Nat × Entity) → List Nat → σ → List Entity × List Nat × σ
  | [], processed, st => ([], processed, st)
  | (j, e) :: rest, processed, st =>
    if j ∈ processed then scanSimilar score threshold seed rest processed st
    else
      let (similarity, st1) := score seed e st
      if threshold ≤ similarity then
        let (es, p, st2) := scanSimilar score threshold seed rest (j :: processed) st1
        (e :: es, p, st2)
      else scanSimilar score threshold seed rest processed st1

/-- The outer loop of `findSimilarEntities` (lines 230-255): each
unprocessed index seeds a group; groups of size at least 2 are emitted in
discovery order. -/
def groupLoop {σ : Type} (score : Entity → Entity → σ → ℚ × σ) (threshold : ℚ) :
    List (Nat × Entity) → List Nat → σ → List (List Entity) × List Nat × σ
  | [], processed, st => ([], processed, st)
  | (i, e) :: rest, processed, st =>
    if i ∈ processed then groupLoop score threshold rest processed st
    else
      let (similar, p1, st1) := scanSimilar score threshold e rest (i :: processed) st
      let group := e :: similar
      let (gs, p2, st2) := groupLoop score threshold rest p1 st1
      if 1 < group.length then (group :: gs, p2, st2) else (gs, p2, st2)

/-- `findSimilarEntities(entities, similarityThreshold)` (lines 226-258),
generic in the scorer. -/
def findSimilarEntitiesG {σ : Type} (score : Entity → Entity → σ → ℚ × σ)
    (entities : List Entity) (threshold : ℚ) (st : σ) : List (List Entity) × σ :=
  let (gs, _, st1) := groupLoop score threshold entities.enum [] st
  (gs, st1)

/-- The scorer actually used by `findSimilarEntities` (lines 241-244):
`calculateDiceCoefficient` on the lower-cased names. -/
def diceScorer (dice : Str → Str → ℚ) : Entity → Entity → SimState → ℚ × SimState :=
  fun currentEntity targetEntity st =>
    calculateDiceCoefficient dice (toLowerStr currentEntity.name)
      (toLowerStr targetEntity.name) st

/-- `findSimilarEntities` as the service runs it. -/
def findSimilarEntities (dice : Str → Str → ℚ) (entities : List Entity) (threshold : ℚ)
    (st : SimState) : List (List Entity) × SimState :=
  findSimilarEntitiesG (diceScorer dice) entities threshold st

/-- The result loop of the Fuse.js branch (lines 319-329): each search
result whose score is within `1 - threshold` is looked up by id in the full
entity list (`findIndex`, line 322); unprocessed hits join the group and
their index is marked. -/
def fuseScan (entities : List Entity) (maxScore : ℚ) :
    List (Entity × ℚ) → List Nat → List Entity × List Nat
  | [], processed => ([], processed)
  | (item, score) :: results, processed =>
    if score ≤ maxScore then
      match entities.findIdx? (fun e => e.id == item.id) with
      | some targetIndex =>
        if targetIndex ∈ processed then fuseScan entities maxScore results processed
        else
          let (es, p) := fuseScan entities maxScore results (targetIndex :: processed)
          (item :: es, p)
      | none => fuseScan entities maxScore results processed
    else fuseScan entities maxScore results processed

/-- The Fuse.js branch of `findSimilarEntitiesOptimized` (lines 278-335).
The batch slicing (line 292) visits global indices `batchStart + i` in the
order `0, 1, ..., n-1`, identical to one pass over `entities.enum`, so the
batching is not re-modelled.  The Fuse instance built over the still
unprocessed other entities (lines 311-314) and its `search` call are the
abstract `oracle`, returning scored items. -/
def fuseLoop (oracle : List Entity → Str → List (Entity × ℚ)) (entities : List Entity)
    (threshold : ℚ) : List (Nat × Entity) → List Nat → List (List Entity) × List Nat
  | [], processed => ([], processed)
  | (globalIndex, currentEntity) :: rest, processed =>
    if globalIndex ∈ processed then fuseLoop oracle entities threshold rest processed
    else
      let currentName := toLowerStr currentEntity.name
      let candidates :=
        (entities.enum.filter
          (fun p => p.1 != globalIndex && !(processed.contains p.1))).map (·.2)
      let results := oracle candidates currentName
      let (similar, p1) :=
        fuseScan entities (1 - threshold) results (globalIndex :: processed)
      let group := currentEntity :: similar
      let (gs, p2) := fuseLoop oracle entities threshold rest p1
      if 1 < group.length then (group :: gs, p2) else (gs, p2)

/-- `findSimilarEntitiesOptimized(entities, similarityThreshold,
useAdvancedAlgorithm)` (lines 267-338), generic in the pairwise scorer and
the fuzzy-search oracle. -/
def findSimilarEntitiesOptimizedG {σ : Type} (score : Entity → Entity → σ → ℚ × σ)
    (oracle : List Entity → Str → List (Entity × ℚ)) (entities : List Entity)
    (threshold : ℚ) (useAdvancedAlgorithm : Bool) (st : σ) : List (List Entity) × σ :=
  if entities.isEmpty then ([], st)
  else if !useAdvancedAlgorithm || entities.length < 5000 then
    findSimilarEntitiesG score entities threshold st
  else
    let (gs, _) := fuseLoop oracle entities threshold entities.enum []
    (gs, st)

/-- `TagMergerService.calculateSimilarity` (tagMergerService.js lines
15-17): delegates to the consolidation service Levenshtein similarity on
lower-cased names. -/
def tagMergerCalculateSimilarity (tag1 tag2 : Str) : ℚ :=
  calculateSimilarity (toLowerStr tag1) (toLowerStr tag2)

/-- The inner loop of `groupSimilarTags` (tagMergerService.js lines 36-45),
generic in the scorer: candidates are skipped by processed id, scored
against the seed name, and added when `similarity >= threshold`. -/
def tagScanSimilar {σ : Type} (score : Str → Str → σ → ℚ × σ) (threshold : ℚ)
    (tagName : Str) : List Entity → List Int → σ → List Entity × List Int × σ
  | [], processed, st => ([], processed, st)
  | otherTag :: rest, processed, st =>
    if otherTag.id ∈ processed then tagScanSimilar score threshold tagName rest processed st
    else
      let (similarity, st1) := score tagName otherTag.name st
      if threshold ≤ similarity then
        let (es, p, st2) :=
          tagScanSimilar score threshold tagName rest (otherTag.id :: processed) st1
        (otherTag :: es, p, st2)
      else tagScanSimilar score threshold tagName rest processed st1

/-- The outer loop of `groupSimilarTags` (tagMergerService.js lines 29-50):
note the `currentGroup.length > 0` push condition on line 47, which also
emits singleton groups. -/
def tagGroupLoop {σ : Type} (score : Str → Str → σ → ℚ × σ) (threshold : ℚ) :
    List Entity → List Int → σ → List (List Entity) × List Int × σ
  | [], processed, st => ([], processed, st)
  | tag :: rest, processed, st =>
    if tag.id ∈ processed then tagGroupLoop score threshold rest processed st
    else
      let (similar, p1, st1) :=
        tagScanSimilar score threshold tag.name rest (tag.id :: processed) st
      let currentGroup := tag :: similar
      let (gs, p2, st2) := tagGroupLoop score threshold rest p1 st1
      if 0 < currentGroup.length then (currentGroup :: gs, p2, st2) else (gs, p2, st2)

/-- `groupSimilarTags(tags)` (tagMergerService.js lines 25-53) with its
stateless Levenshtein scorer; `threshold` is the instance field
`this.similarityThreshold` (0.8 in the exported instance). -/
def groupSimilarTags (threshold : ℚ) (tags : List Entity) : List (List Entity) :=
  (tagGroupLoop (fun a b (u : Unit) => (tagMergerCalculateSimilarity a b, u))
    threshold tags [] ()).1

/-!
## Sorting, primary selection
-/

/-- The group total of `sortGroupsByDocCount` (lines 347-348):
`a.reduce((sum, tag) => sum + (tag.document_count || 0), 0)`. -/
def groupDocCount (g : List Entity) : Int := g.foldl (fun sum tag => sum + docCount tag) 0

/-- `sortGroupsByDocCount(groups)` (lines 345-351): stable sort (V8 sort is
stable) by descending total document count; the comparator
`countB - countA` keeps `a` before `b` iff `countB ≤ countA`. -/
def sortGroupsByDocCount (groups : List (List Entity)) : List (List Entity) :=
  groups.mergeSort (fun a b => decide (groupDocCount b ≤ groupDocCount a))

/-- The target selection of `processAndMergeTagsOptimized` (lines 482-484)
and `processAndMergeTags` (tagMergerService.js lines 125-127):
`group.reduce((max, tag) => (tag.document_count || 0) > (max.document_count
|| 0) ? tag : max, group[0])`.  With an initial value, `reduce` folds over
the whole group, so `first` is `group[0]` and `g` the whole group. -/
def reduceMaxTag (first : Entity) (g : List Entity) : Entity :=
  g.foldl (fun maxTag tag => if docCount maxTag < docCount tag then tag else maxTag) first

/-!
## The external document store

The merge executors call three operations of `paperlessService`; they are
translated from the wrapper's own code.  `getDocuments`
(paperlessService.js lines 940-942) ignores its filter argument entirely
and returns `getAllDocuments()` — every document, as a bare array.
`updateDocument` (lines 1260-1276), when given a tag list, unions it with
the document's current tags via `[...new Set([...currentDoc.tags,
...updates.tags])]` (line 1272) before writing.  `paperlessService.deleteTag`
does not exist in the repository at all — only its call sites do — so the
deletion step alone is modelled from the spec (section 6 `deleteEntity`,
an absent entity being a tolerated no-op per section 4.4).  All three
merge implementations read `.results` off the array `getDocuments`
returns (part_000 lines 367 and 835, tagMergerService.js line 82); an
array has no `results` property, so the read yields `undefined` and the
`for...of` over it throws a TypeError, caught by each merge's surrounding
try/catch.  The failure injections `updFail`/`delFail` model section 7's
DocumentUpdateFailed / EntityDeleteFailed on the update and delete steps
that sit behind that throw.
-/

structure Doc where
  id : Int
  tags : List Int
deriving DecidableEq, Repr

structure Store where
  docs : List Doc
  tagIds : List Int
deriving DecidableEq, Repr

/-- `paperlessService.getDocuments(...)` (paperlessService.js lines
940-942): the filter argument is ignored and `getAllDocuments()` — every
document, as a bare array — is returned. -/
def getDocuments (s : Store) : List Doc := s.docs

/-- The `.results` read the merge loops perform on that bare array
(part_000 lines 367 and 835, tagMergerService.js line 82): an array has no
`results` property, so the read yields `undefined`, never a list; iterating
it throws. -/
def resultsOf (_response : List Doc) : Option (List Doc) := none

/-- `[...new Set(list)]` keeps the first occurrence of each element, in
order. -/
def jsSetDedupAux (seen : List Int) : List Int → List Int
  | [] => []
  | x :: xs => if x ∈ seen then jsSetDedupAux seen xs else x :: jsSetDedupAux (x :: seen) xs

def jsSetDedup (xs : List Int) : List Int := jsSetDedupAux [] xs

/-- `paperlessService.updateDocument(docId, { tags })` (paperlessService.js
lines 1260-1276): line 1272 unions the posted tag list with the document's
current tags, `[...new Set([...currentDoc.tags, ...updates.tags])]`, and
writes that combined list — the posted list is not written as given. -/
def updateDocument (s : Store) (docId : Int) (newTags : List Int) : Store :=
  { s with docs := s.docs.map (fun d =>
      if d.id = docId then { d with tags := jsSetDedup (d.tags ++ newTags) } else d) }

/-- Modelled from the spec: section 6 `deleteEntity` — remove the id from
the live set; deleting an absent id is a tolerated no-op (section 4.4).
`paperlessService.deleteTag` has no code in the repository, only call
sites, and those call sites are unreachable (see `naiveMergeLoop` and
`enhancedMergeTags`). -/
def deleteTagEntity (s : Store) (tagId : Int) : Store :=
  { s with tagIds := s.tagIds.filter (fun t => t != tagId) }

def updateFailedMsg : Str := "DocumentUpdateFailed".data

def deleteFailedMsg : Str := "EntityDeleteFailed".data

/-- The TypeError thrown by `for (const doc of response.results)` when
`response` is the bare array `getDocuments` returns. -/
def typeErrorMsg : Str := "response.results is not iterable".data

/-- The update loop of `EnhancedConsolidationService.mergeTags` (lines
388-396).  The batch slicing visits the collected updates sequentially in
order, so it is one pass; each write goes through `updateDocument` and its
union semantics.  A failing `updateDocument` throws (section 7): the loop
stops with the store as mutated so far. -/
def applyUpdates (updFail : Int → Bool) : List (Int × List Int) → Store → Option Str × Store
  | [], s => (none, s)
  | (docId, tags) :: rest, s =>
    if updFail docId then (some updateFailedMsg, s)
    else applyUpdates updFail rest (updateDocument s docId tags)

/-- The deletion loop of `EnhancedConsolidationService.mergeTags` (lines
398-401). -/
def deleteAllTags (delFail : Int → Bool) : List Int → Store → Option Str × Store
  | [], s => (none, s)
  | sourceId :: rest, s =>
    if delFail sourceId then (some deleteFailedMsg, s)
    else deleteAllTags delFail rest (deleteTagEntity s sourceId)

/-- The replacement tag list of `EnhancedConsolidationService.mergeTags`
(lines 376-386): drop the source tags, append the target, de-duplicate with
`Set` semantics. -/
def newTagsFor (targetTagId : Int) (sourceTagIds : List Int) (tags : List Int) : List Int :=
  jsSetDedup (tags.filter (fun id => !(sourceTagIds.contains id)) ++ [targetTagId])

/-- The collection inner loop (lines 367-371): `documents.set(doc.id,
[...doc.tags])` for each listed document whose id is not yet a key.  The JS
`Map` keeps insertion order, hence the append. -/
def addDocsOnce (acc : List (Int × List Int)) : List Doc → List (Int × List Int)
  | [] => acc
  | doc :: ds =>
    if acc.any (fun p => p.1 == doc.id) then addDocsOnce acc ds
    else addDocsOnce (acc ++ [(doc.id, doc.tags)]) ds

/-- The collection outer loop of `EnhancedConsolidationService.mergeTags`
(lines 364-372): for every source id, fetch the documents and iterate
`response.results` (line 367).  The fetch returns a bare array, so the
read yields `undefined` and the very first iteration throws: with at least
one source id the collection never completes (`none`); the inner recording
step in the dead branch is `addDocsOnce`. -/
def collectDocs (s : Store) : List Int → List (Int × List Int) → Option (List (Int × List Int))
  | [], acc => some acc
  | _sourceId :: rest, acc =>
    match resultsOf (getDocuments s) with
    | none => none
    | some docs => collectDocs s rest (addDocsOnce acc docs)

/-- `EnhancedConsolidationService.mergeTags(targetTagId, sourceTagIds)`
(lines 359-409): collect all affected documents into a map keyed by
document id, issue one update each, then delete the source tags; the
surrounding try/catch turns any thrown failure into `false`, keeping the
mutations made before the throw.  With a non-empty source list the
collection throws on `response.results` (line 367) before any mutation, so
the catch returns `false` on the untouched store; the update and deletion
phases behind it are unreachable but modelled faithfully. -/
def enhancedMergeTags (updFail delFail : Int → Bool) (targetTagId : Int)
    (sourceTagIds : List Int) (s : Store) : Bool × Store :=
  match collectDocs s sourceTagIds [] with
  | none => (false, s)
  | some documents =>
    let updates := documents.map (fun p => (p.1, newTagsFor targetTagId sourceTagIds p.2))
    match applyUpdates updFail updates s with
    | (some _, s1) => (false, s1)
    | (none, s1) =>
      match deleteAllTags delFail sourceTagIds s1 with
      | (some _, s2) => (false, s2)
      | (none, s2) => (true, s2)

/-- The per-document tag rewrite of the naive `mergeTags`
(tagMergerService.js lines 83-86): drop this source id, append the target
if missing. -/
def naiveNewTags (targetTagId sourceId : Int) (tags : List Int) : List Int :=
  let tags1 := tags.filter (fun id => id != sourceId)
  if tags1.contains targetTagId then tags1 else tags1 ++ [targetTagId]

/-- The per-source document loop of the naive `mergeTags`
(tagMergerService.js lines 82-90): iterate the fetched list, computing each
new tag list and writing it through `updateDocument` (union semantics). -/
def naiveUpdateDocs (updFail : Int → Bool) (targetTagId sourceId : Int) :
    List Doc → Store → Option Str × Store
  | [], s => (none, s)
  | doc :: ds, s =>
    if updFail doc.id then (some updateFailedMsg, s)
    else naiveUpdateDocs updFail targetTagId sourceId ds
      (updateDocument s doc.id (naiveNewTags targetTagId sourceId doc.tags))

/-- The source loop of the naive `mergeTags` (tagMergerService.js lines
77-94, identically ConsolidationService.mergeTags, part_000 lines 831-849):
fetch the documents of one source id, iterate `documents.results`, update
each, delete the source, move to the next source.  The fetch returns a
bare array (paperlessService.js line 940), so with at least one source the
iteration throws the TypeError at once (tagMergerService.js line 82,
part_000 line 835); the update and delete steps are unreachable but
modelled faithfully. -/
def naiveMergeLoop (updFail delFail : Int → Bool) (targetTagId : Int) :
    List Int → Store → Option Str × Store
  | [], s => (none, s)
  | sourceId :: rest, s =>
    match resultsOf (getDocuments s) with
    | none => (some typeErrorMsg, s)
    | some documents =>
      match naiveUpdateDocs updFail targetTagId sourceId documents s with
      | (some e, s1) => (some e, s1)
      | (none, s1) =>
        if delFail sourceId then (some deleteFailedMsg, s1)
        else naiveMergeLoop updFail delFail targetTagId rest (deleteTagEntity s1 sourceId)

/-- `TagMergerService.mergeTags(targetTagId, sourceTagIds)`
(tagMergerService.js lines 74-101): the naive path, with the try/catch
returning `false` on any thrown failure. -/
def mergeTags (updFail delFail : Int → Bool) (targetTagId : Int) (sourceTagIds : List Int)
    (s : Store) : Bool × Store :=
  match naiveMergeLoop updFail delFail targetTagId sourceTagIds s with
  | (some _, s1) => (false, s1)
  | (none, s1) => (true, s1)

/-- Reference definition written from the spec's words (sections 4.4 and
8), for comparing the source behaviour against the contract: the reference
list the spec requires an affected document to end with — the other tags in
order, every retiring id removed, the primary present exactly once. -/
def mergedTags (targetTagId : Int) (sourceTagIds : List Int) (tags : List Int) : List Int :=
  let kept := tags.filter (fun id => !(sourceTagIds.contains id))
  if kept.contains targetTagId then kept else kept ++ [targetTagId]

/-!
## The top-level pipeline
-/

/-- `getPerformanceStats()` returns this snapshot (lines 57-71).
`memoryUsage` is sampled from the process and passed in; `elapsedTime`
is `null` unless both timestamps are truthy (a JS `&&` on numbers-or-null:
`null` and `0` are falsy). -/
structure PerfReport where
  memoryUsage : ℚ
  cacheHitRate : ℚ
  comparisons : Nat
  elapsedTime : Option ℚ
deriving DecidableEq, Repr

def getPerformanceStats (memoryUsage : ℚ) (st : SimState) : PerfReport :=
  { memoryUsage := memoryUsage
    cacheHitRate :=
      if 0 < st.cacheAttempts then (st.cacheHits : ℚ) / (st.cacheAttempts : ℚ) else 0
    comparisons := st.comparisons
    elapsedTime :=
      match st.endTime, st.startTime with
      | some endTime, some startTime =>
        if endTime ≠ 0 ∧ startTime ≠ 0 then some (((endTime - startTime : Int) : ℚ) / 1000)
        else none
      | _, _ => none }

/-- The result object of `processAndMergeTagsOptimized` (lines 516-520 and
523-528); `error` is present only on the catch path. -/
structure MergeRunResult where
  mergeCount : Nat
  mergeDetails : List Str
  error : Option Str
  stats : PerfReport
deriving DecidableEq, Repr

def mergeDetailHead : Str := "Merged tags ".data

def mergeDetailMid : Str := " into ".data

def commaSep : Str := ", ".data

/-- The merge detail template literal (lines 495-497). -/
def mergeDetailMsg (sourceTags : List Entity) (targetTag : Entity) : Str :=
  mergeDetailHead ++ List.intercalate commaSep (sourceTags.map (·.name)) ++
    mergeDetailMid ++ targetTag.name

/-- The group loop of `processAndMergeTagsOptimized` (lines 476-506).  The
slicing into `ceil(n/10)`-sized batches visits the sorted groups
sequentially in order (and only runs `global.gc`), so it is one pass.  Each
group of size at least 2 picks its target by `reduceMaxTag`, retires the
members with a different id, and counts the merge only when `mergeTags`
reported success. -/
def processGroups (updFail delFail : Int → Bool) :
    List (List Entity) → Store → Nat × List Str × Store
  | [], s => (0, [], s)
  | group :: rest, s =>
    match group with
    | [] => processGroups updFail delFail rest s
    | first :: others =>
      if 1 < (first :: others).length then
        let targetTag := reduceMaxTag first (first :: others)
        let sourceTags := (first :: others).filter (fun tag => tag.id != targetTag.id)
        let (success, s1) :=
          enhancedMergeTags updFail delFail targetTag.id (sourceTags.map (·.id)) s
        let (cnt, details, s2) := processGroups updFail delFail rest s1
        if success then
          (sourceTags.length + cnt, mergeDetailMsg sourceTags targetTag :: details, s2)
        else (cnt, details, s2)
      else processGroups updFail delFail rest s

/-- `processAndMergeTagsOptimized(threshold, useAdvancedAlgorithm)` (lines
451-530).  External inputs are parameters: the Dice black box, the Fuse
oracle, the injected update and deletion failures, the tag listing result
(`getTags` per section 6 `listEntities`, the only call whose failure
reaches the outer catch), the two `Date.now()` samples and the sampled
memory usage.  Line 454 assigns `startTime`; line 455 then calls
`resetPerformance()`, which nulls it again. -/
def processAndMergeTagsOptimized (dice : Str → Str → ℚ)
    (oracle : List Entity → Str → List (Entity × ℚ)) (updFail delFail : Int → Bool)
    (getTagsResult : Except Str (List Entity)) (t0 t1 : Int) (memoryUsage : ℚ)
    (threshold : ℚ) (useAdvancedAlgorithm : Bool) (st : SimState) (s : Store) :
    MergeRunResult × SimState × Store :=
  let st1 := { st with startTime := some t0 }
  let st2 := resetPerformance st1
  match getTagsResult with
  | .error e =>
    ({ mergeCount := 0, mergeDetails := [], error := some e,
       stats := getPerformanceStats memoryUsage st2 }, st2, s)
  | .ok tags =>
    let (groups, st3) :=
      findSimilarEntitiesOptimizedG (diceScorer dice) oracle tags threshold
        useAdvancedAlgorithm st2
    let sortedGroups := sortGroupsByDocCount groups
    let (mergeCount, mergeDetails, s1) := processGroups updFail delFail sortedGroups s
    let st4 := { st3 with endTime := some t1 }
    ({ mergeCount := mergeCount, mergeDetails := mergeDetails, error := none,
       stats := getPerformanceStats memoryUsage st4 }, st4, s1)

/-!
## Proof-support definitions
-/

/-- The list of keys currently in the cache. -/
def cacheKeys (st : SimState) : List Str := st.cache.map Prod.fst

/-- The cache key of one recorded call. -/
def keyOf (p : Str × Str) : Str := getCacheKey p.1 p.2

/-- Count the values of `f` over the calls that are not yet in `seen`,
first occurrences only: the number of distinct values `f` takes on the
list, excluding those already seen. -/
def distinctCount {α : Type} [DecidableEq α] (f : Str × Str → α) (seen : List α) :
    List (Str × Str) → Nat
  | [] => 0
  | p :: ps => if f p ∈ seen then distinctCount f seen ps
               else 1 + distinctCount f (f p :: seen) ps

/-!
## Lemmas about the Levenshtein table
-/

theorem track_zero_left (s1 s2 : Str) (i : Nat) : track s1 s2 0 i = i := by
  simp [track]

theorem track_zero_right (s1 s2 : Str) (j : Nat) : track s1 s2 j 0 = j := by
  cases j with
  | zero => exact track_zero_left s1 s2 0
  | succ j => simp [track]

theorem track_symm (s1 s2 : Str) (j i : Nat) : track s1 s2 j i = track s2 s1 i j := by
  have key : ∀ n j i, j + i ≤ n → track s1 s2 j i = track s2 s1 i j := by
    intro n
    induction n with
    | zero =>
      intro j i h
      have hj : j = 0 := by omega
      have hi : i = 0 := by omega
      subst hj; subst hi; rw [track_zero_left, track_zero_right]
    | succ n ih =>
      intro j i h
      cases j with
      | zero => rw [track_zero_left, track_zero_right]
      | succ j =>
        cases i with
        | zero => rw [track_zero_left, track_zero_right]
        | succ i =>
          have e1 := ih (j + 1) i (by omega)
          have e2 := ih j (i + 1) (by omega)
          have e3 := ih j i (by omega)
          simp only [track]
          rw [e1, e2, e3, min_left_comm]
          have : (if s1.getD i ' ' = s2.getD j ' ' then (0 : Nat) else 1)
              = (if s2.getD j ' ' = s1.getD i ' ' then (0 : Nat) else 1) := by
            simp [eq_comm]
          rw [this]
  exact key (j + i) j i le_rfl

theorem track_le_max (s1 s2 : Str) (j i : Nat) : track s1 s2 j i ≤ max i j := by
  have key : ∀ n j i, j + i ≤ n → track s1 s2 j i ≤ max i j := by
    intro n
    induction n with
    | zero =>
      intro j i h
      have hj : j = 0 := by omega
      have hi : i = 0 := by omega
      subst hj; subst hi; simp [track]
    | succ n ih =>
      intro j i h
      cases j with
      | zero => rw [track_zero_left]; exact le_max_left _ _
      | succ j =>
        cases i with
        | zero => rw [track_zero_right]; exact le_max_right _ _
        | succ i =>
          have e3 := ih j i (by omega)
          have hind : (if s1.getD i ' ' = s2.getD j ' ' then (0 : Nat) else 1) ≤ 1 := by
            split <;> omega
          calc track s1 s2 (j + 1) (i + 1)
              ≤ track s1 s2 j i + (if s1.getD i ' ' = s2.getD j ' ' then (0 : Nat) else 1) := by
                simp only [track]
                exact le_trans (min_le_right _ _) (min_le_right _ _)
            _ ≤ max i j + 1 := Nat.add_le_add e3 hind
            _ ≤ max (i + 1) (j + 1) := by rw [Nat.succ_max_succ]
  exact key (j + i) j i le_rfl

theorem track_self (s : Str) (i : Nat) : track s s i i = 0 := by
  induction i with
  | zero => exact track_zero_left s s 0
  | succ i ih =>
    simp only [track, ih]
    simp

theorem levenshteinDistance_symm (s1 s2 : Str) :
    levenshteinDistance s1 s2 = levenshteinDistance s2 s1 := by
  unfold levenshteinDistance
  exact track_symm s1 s2 s2.length s1.length

theorem levenshteinDistance_le (s1 s2 : Str) :
    levenshteinDistance s1 s2 ≤ max s1.length s2.length := by
  exact track_le_max s1 s2 s2.length s1.length

theorem levenshteinDistance_self (s : Str) : levenshteinDistance s s = 0 := by
  exact track_self s s.length

/-- C9: for all strings `a` and `b`, the normalized-Levenshtein similarity
returns a value in [0,1], is symmetric, and equals 1.0 on identical
strings, including the empty pair; moreover the caching wrapper
`calculateLevenshteinSimilarity` returns exactly this value when run on the
fresh (empty-cache) state. -/
theorem levenshteinSimilarity_range_symm_refl (a b : Str) :
    0 ≤ calculateSimilarity a b ∧ calculateSimilarity a b ≤ 1 ∧
      calculateSimilarity a b = calculateSimilarity b a ∧
      calculateSimilarity a a = 1 ∧ calculateSimilarity [] [] = 1 ∧
      (calculateLevenshteinSimilarity a b freshSimState).1 = calculateSimilarity a b := by
  have range : ∀ x y : Str, 0 ≤ calculateSimilarity x y ∧ calculateSimilarity x y ≤ 1 := by
    intro x y
    unfold calculateSimilarity
    by_cases h : max x.length y.length = 0
    · simp [h]
    · have hL : (0 : ℚ) < (max x.length y.length : Nat) := by
        exact_mod_cast Nat.pos_of_ne_zero h
      have hd : ((levenshteinDistance x y : Nat) : ℚ) ≤ ((max x.length y.length : Nat) : ℚ) := by
        exact_mod_cast levenshteinDistance_le x y
      have hd0 : (0 : ℚ) ≤ ((levenshteinDistance x y : Nat) : ℚ) := Nat.cast_nonneg _
      constructor
      · simp only [h, if_false]
        exact div_nonneg (by linarith) (le_of_lt hL)
      · simp only [h, if_false]
        rw [div_le_one hL]
        linarith
  have refl1 : ∀ x : Str, calculateSimilarity x x = 1 := by
    intro x
    unfold calculateSimilarity
    simp only [Nat.max_self]
    by_cases h : x.length = 0
    · rw [if_pos h]
    · rw [if_neg h, levenshteinDistance_self]
      have hL : ((x.length : Nat) : ℚ) ≠ 0 := by exact_mod_cast h
      rw [Nat.cast_zero, sub_zero, div_self hL]
  refine ⟨(range a b).1, (range a b).2, ?_, refl1 a, refl1 [], ?_⟩
  · unfold calculateSimilarity
    rw [levenshteinDistance_symm a b, Nat.max_comm a.length b.length]
  · by_cases h : max a.length b.length = 0
    · simp [calculateLevenshteinSimilarity, List.lookup, h, calculateSimilarity]
    · simp [calculateLevenshteinSimilarity, List.lookup, h]

/-!
## Cache-key order lemmas
-/

theorem charListLe_total (a b : Str) : charListLe a b = true ∨ charListLe b a = true := by
  induction a generalizing b with
  | nil => left; rfl
  | cons c cs ih =>
    cases b with
    | nil => right; rfl
    | cons d ds =>
      by_cases h : c = d
      · subst h
        rcases ih ds with h1 | h1
        · left; simpa [charListLe] using h1
        · right; simpa [charListLe] using h1
      · rcases lt_or_gt_of_ne h with hlt | hgt
        · left; simp [charListLe, h, hlt]
        · right
          have h2 : d ≠ c := fun hdc => h hdc.symm
          simp [charListLe, h2, hgt]

theorem charListLe_antisymm (a b : Str) (hab : charListLe a b = true)
    (hba : charListLe b a = true) : a = b := by
  induction a generalizing b with
  | nil =>
    cases b with
    | nil => rfl
    | cons d ds => simp [charListLe] at hba
  | cons c cs ih =>
    cases b with
    | nil => simp [charListLe] at hab
    | cons d ds =>
      by_cases h : c = d
      · subst h
        simp only [charListLe, if_pos rfl] at hab hba
        rw [ih ds hab hba]
      · have h2 : d ≠ c := fun hdc => h hdc.symm
        simp only [charListLe, if_neg h, decide_eq_true_eq] at hab
        simp only [charListLe, if_neg h2, decide_eq_true_eq] at hba
        exact absurd hba (lt_asymm hab)

theorem getCacheKey_eq_sortPair (a b : Str) :
    getCacheKey a b = (sortPair (a, b)).1 ++ cacheKeySep ++ (sortPair (a, b)).2 := by
  unfold getCacheKey sortPair
  split <;> rfl

theorem sortPair_symm (a b : Str) : sortPair (a, b) = sortPair (b, a) := by
  unfold sortPair
  rcases h1 : charListLe a b with _ | _ <;> rcases h2 : charListLe b a with _ | _ <;> simp
  · rcases charListLe_total a b with h | h
    · exact absurd h (by simp [h1])
    · exact absurd h (by simp [h2])
  · exact ⟨charListLe_antisymm a b h1 h2, (charListLe_antisymm a b h1 h2).symm⟩

theorem getCacheKey_symm (a b : Str) : getCacheKey a b = getCacheKey b a := by
  rw [getCacheKey_eq_sortPair, getCacheKey_eq_sortPair, sortPair_symm]

theorem getCacheKey_congr {p q : Str × Str} (h : sortPair p = sortPair q) :
    keyOf p = keyOf q := by
  unfold keyOf
  rw [getCacheKey_eq_sortPair, getCacheKey_eq_sortPair, h]

/-!
## Cache counting lemmas
-/

theorem lookup_none_iff (c : List (Str × ℚ)) (k : Str) :
    c.lookup k = none ↔ k ∉ c.map Prod.fst := by
  induction c with
  | nil => simp [List.lookup]
  | cons p ps ih =>
    obtain ⟨k', v⟩ := p
    by_cases h : k = k'
    · subst h; simp [List.lookup]
    · simp [List.lookup, beq_false_of_ne h, ih, h]

theorem dice_hit {dice : Str → Str → ℚ} {a b : Str} {st : SimState} {v : ℚ}
    (h : st.cache.lookup (getCacheKey a b) = some v) :
    (calculateDiceCoefficient dice a b st).2 =
      { st with comparisons := st.comparisons + 1, cacheAttempts := st.cacheAttempts + 1,
                cacheHits := st.cacheHits + 1 } := by
  simp [calculateDiceCoefficient, h]

theorem dice_miss {dice : Str → Str → ℚ} {a b : Str} {st : SimState}
    (h : st.cache.lookup (getCacheKey a b) = none) :
    (calculateDiceCoefficient dice a b st).2 =
      { st with comparisons := st.comparisons + 1, cacheAttempts := st.cacheAttempts + 1,
                cache := (getCacheKey a b, dice a b) :: st.cache } := by
  simp [calculateDiceCoefficient, h]

theorem runDiceCalls_attempts (dice : Str → Str → ℚ) :
    ∀ (ps : List (Str × Str)) (st : SimState),
      (runDiceCalls dice ps st).cacheAttempts = st.cacheAttempts + ps.length := by
  intro ps
  induction ps with
  | nil => intro st; simp [runDiceCalls]
  | cons p ps ih =>
    intro st
    obtain ⟨a, b⟩ := p
    rcases h : st.cache.lookup (getCacheKey a b) with _ | v
    · simp only [runDiceCalls]
      rw [dice_miss h, ih]
      simp only [List.length_cons]
      omega
    · simp only [runDiceCalls]
      rw [dice_hit h, ih]
      simp only [List.length_cons]
      omega

theorem runDiceCalls_hits (dice : Str → Str → ℚ) :
    ∀ (ps : List (Str × Str)) (st : SimState),
      (runDiceCalls dice ps st).cacheHits + distinctCount keyOf (cacheKeys st) ps
        = st.cacheHits + ps.length := by
  intro ps
  induction ps with
  | nil => intro st; simp [runDiceCalls, distinctCount]
  | cons p ps ih =>
    intro st
    obtain ⟨a, b⟩ := p
    rcases h : st.cache.lookup (getCacheKey a b) with _ | v
    · have hk : keyOf (a, b) ∉ cacheKeys st := by
        have := (lookup_none_iff st.cache (getCacheKey a b)).mp h
        simpa [keyOf, cacheKeys] using this
      simp only [runDiceCalls, distinctCount, if_neg hk]
      rw [dice_miss h]
      have hkeys :
          cacheKeys { st with comparisons := st.comparisons + 1,
                              cacheAttempts := st.cacheAttempts + 1,
                              cache := (getCacheKey a b, dice a b) :: st.cache }
            = keyOf (a, b) :: cacheKeys st := by
        simp [cacheKeys, keyOf]
      have hrun := ih { st with comparisons := st.comparisons + 1,
                                cacheAttempts := st.cacheAttempts + 1,
                                cache := (getCacheKey a b, dice a b) :: st.cache }
      rw [hkeys] at hrun
      dsimp only at hrun
      simp only [List.length_cons]
      omega
    · have hk : keyOf (a, b) ∈ cacheKeys st := by
        by_contra hk
        have hcontra := (lookup_none_iff st.cache (getCacheKey a b)).mpr
          (by simpa [keyOf, cacheKeys] using hk)
        rw [hcontra] at h
        cases h
      simp only [runDiceCalls, distinctCount, if_pos hk]
      rw [dice_hit h]
      have hrun := ih { st with comparisons := st.comparisons + 1,
                                cacheAttempts := st.cacheAttempts + 1,
                                cacheHits := st.cacheHits + 1 }
      have hkeys :
          cacheKeys { st with comparisons := st.comparisons + 1,
                              cacheAttempts := st.cacheAttempts + 1,
                              cacheHits := st.cacheHits + 1 }
            = cacheKeys st := by
        simp [cacheKeys]
      rw [hkeys] at hrun
      dsimp only at hrun
      simp only [List.length_cons]
      omega

theorem distinctCount_toFinset {α : Type} [DecidableEq α] (f : Str × Str → α) :
    ∀ (ps : List (Str × Str)) (seen : List α),
      distinctCount f seen ps = ((ps.map f).toFinset \ seen.toFinset).card := by
  intro ps
  induction ps with
  | nil => intro seen; simp [distinctCount]
  | cons p ps ih =>
    intro seen
    by_cases h : f p ∈ seen
    · rw [distinctCount, if_pos h, ih]
      congr 1
      simp only [List.map_cons, List.toFinset_cons]
      rw [Finset.insert_sdiff_of_mem _ (List.mem_toFinset.mpr h)]
    · rw [distinctCount, if_neg h, ih]
      simp only [List.map_cons, List.toFinset_cons]
      have hins : insert (f p) ((ps.map f).toFinset) \ seen.toFinset
          = insert (f p) ((ps.map f).toFinset \ (f p :: seen).toFinset) := by
        ext x
        by_cases hx : x = f p
        · subst hx
          simp [h]
        · simp [hx]
      rw [hins, Finset.card_insert_of_not_mem (by simp)]
      simp only [List.toFinset_cons]
      omega

theorem distinctCount_congr {α β : Type} [DecidableEq α] [DecidableEq β]
    (f : Str × Str → α) (g : Str × Str → β) :
    ∀ (ps : List (Str × Str)) (seenF : List α) (seenG : List β),
      (∀ p ∈ ps, (f p ∈ seenF ↔ g p ∈ seenG)) →
      (∀ p ∈ ps, ∀ q ∈ ps, (f p = f q ↔ g p = g q)) →
      distinctCount f seenF ps = distinctCount g seenG ps := by
  intro ps
  induction ps with
  | nil => intro _ _ _ _; rfl
  | cons p ps ih =>
    intro seenF seenG hmem hinj
    by_cases h : f p ∈ seenF
    · have hg : g p ∈ seenG := (hmem p (by simp)).mp h
      rw [distinctCount, if_pos h, distinctCount, if_pos hg]
      exact ih seenF seenG (fun q hq => hmem q (by simp [hq]))
        (fun q hq r hr => hinj q (by simp [hq]) r (by simp [hr]))
    · have hg : g p ∉ seenG := fun hgp => h ((hmem p (by simp)).mpr hgp)
      rw [distinctCount, if_neg h, distinctCount, if_neg hg]
      congr 1
      apply ih
      · intro q hq
        simp only [List.mem_cons]
        constructor
        · rintro (h1 | h1)
          · exact Or.inl ((hinj q (by simp [hq]) p (by simp)).mp h1)
          · exact Or.inr ((hmem q (by simp [hq])).mp h1)
        · rintro (h1 | h1)
          · exact Or.inl ((hinj q (by simp [hq]) p (by simp)).mpr h1)
          · exact Or.inr ((hmem q (by simp [hq])).mpr h1)
      · exact fun q hq r hr => hinj q (by simp [hq]) r (by simp [hr])

/-- C6 (amended): the cache key is order-independent, so `similarity(a,b)`
and `similarity(b,a)` share a slot, and over any run of N calls from the
fresh state `cacheAttempts = N`; provided the `'::'`-joined keys do not
collide across distinct unordered pairs of the run (which holds e.g.
whenever no argument string contains `'::'`), `cacheHits = N - M` where M
is the number of distinct unordered pairs called.  The proviso is needed
because the separator can occur inside the strings themselves. -/
theorem cacheKey_counting (dice : Str → Str → ℚ) (ps : List (Str × Str))
    (hinj : ∀ p ∈ ps, ∀ q ∈ ps, keyOf p = keyOf q → sortPair p = sortPair q) :
    (∀ a b : Str, getCacheKey a b = getCacheKey b a) ∧
    (runDiceCalls dice ps freshSimState).cacheAttempts = ps.length ∧
    (runDiceCalls dice ps freshSimState).cacheHits
      = ps.length - (ps.map sortPair).toFinset.card := by
  refine ⟨getCacheKey_symm, ?_, ?_⟩
  · have h := runDiceCalls_attempts dice ps freshSimState
    have h0 : freshSimState.cacheAttempts = 0 := rfl
    rw [h0] at h
    simpa using h
  · have hits := runDiceCalls_hits dice ps freshSimState
    have hck : cacheKeys freshSimState = ([] : List Str) := rfl
    rw [hck] at hits
    have hcongr : distinctCount keyOf ([] : List Str) ps
        = distinctCount sortPair ([] : List (Str × Str)) ps := by
      apply distinctCount_congr keyOf sortPair ps [] []
      · intro p _hp; simp
      · intro p hp q hq
        exact ⟨fun h => hinj p hp q hq h, fun h => getCacheKey_congr h⟩
    rw [hcongr, distinctCount_toFinset sortPair ps []] at hits
    have h0 : freshSimState.cacheHits = 0 := rfl
    rw [h0] at hits
    simp only [List.toFinset_nil, Finset.sdiff_empty] at hits
    omega

/-- Witness for C6 at a concrete two-call run covering one unordered pair
in both orders: both hypotheses hold by computation, attempts = 2 and
hits = 2 - 1 = 1. -/
theorem cacheKey_counting_witness :
    (runDiceCalls (fun _ _ => (0 : ℚ))
        [(("alpha").data, ("beta").data), (("beta").data, ("alpha").data)]
        freshSimState).cacheAttempts = 2 ∧
    (runDiceCalls (fun _ _ => (0 : ℚ))
        [(("alpha").data, ("beta").data), (("beta").data, ("alpha").data)]
        freshSimState).cacheHits
      = 2 - ([(("alpha").data, ("beta").data), (("beta").data, ("alpha").data)].map
          sortPair).toFinset.card :=
  ⟨(cacheKey_counting (fun _ _ => (0 : ℚ))
      [(("alpha").data, ("beta").data), (("beta").data, ("alpha").data)] (by decide)).2.1,
   (cacheKey_counting (fun _ _ => (0 : ℚ))
      [(("alpha").data, ("beta").data), (("beta").data, ("alpha").data)] (by decide)).2.2⟩

/-- C6 counterexample: the two calls ("a::b","c") and ("a","b::c") cover
two distinct unordered pairs (M = 2, N = 2), yet the join with `'::'` is
ambiguous — both produce the key "a::b::c" — so the second call scores a
cache hit: `cacheHits = 1`, not `N - M = 0` as the claim states. -/
theorem cacheKey_collision :
    (runDiceCalls (fun _ _ => (0 : ℚ))
        [(("a::b").data, ("c").data), (("a").data, ("b::c").data)]
        freshSimState).cacheAttempts = 2 ∧
    ([(("a::b").data, ("c").data), (("a").data, ("b::c").data)].map
        sortPair).toFinset.card = 2 ∧
    (runDiceCalls (fun _ _ => (0 : ℚ))
        [(("a::b").data, ("c").data), (("a").data, ("b::c").data)]
        freshSimState).cacheHits = 1 ∧
    ¬ ((runDiceCalls (fun _ _ => (0 : ℚ))
        [(("a::b").data, ("c").data), (("a").data, ("b::c").data)]
        freshSimState).cacheHits
      = 2 - ([(("a::b").data, ("c").data), (("a").data, ("b::c").data)].map
          sortPair).toFinset.card) := by
  decide

/-!
## Primary-selection lemmas
-/

theorem foldl_pick_split :
    ∀ (l : List Entity) (acc : Entity),
      (l.foldl (fun maxTag tag => if docCount maxTag < docCount tag then tag else maxTag) acc
          = acc ∧ ∀ y ∈ l, docCount y ≤ docCount acc) ∨
      (∃ l₁ x l₂, l = l₁ ++ x :: l₂ ∧
        l.foldl (fun maxTag tag => if docCount maxTag < docCount tag then tag else maxTag) acc
          = x ∧
        docCount acc < docCount x ∧ (∀ y ∈ l₁, docCount y < docCount x) ∧
        (∀ y ∈ l₂, docCount y ≤ docCount x)) := by
  intro l
  induction l with
  | nil => intro acc; left; exact ⟨rfl, by simp⟩
  | cons z zs ih =>
    intro acc
    by_cases hz : docCount acc < docCount z
    · rcases ih z with ⟨hfold, hle⟩ | ⟨l₁, x, l₂, hsplit, hfold, hlt, hl₁, hl₂⟩
      · right
        refine ⟨[], z, zs, by simp, ?_, hz, by simp, hle⟩
        simpa [List.foldl_cons, if_pos hz] using hfold
      · right
        refine ⟨z :: l₁, x, l₂, by simp [hsplit], ?_, lt_trans hz hlt, ?_, hl₂⟩
        · simpa [List.foldl_cons, if_pos hz] using hfold
        · intro y hy
          rcases List.mem_cons.mp hy with h | h
          · subst h; exact hlt
          · exact hl₁ y h
    · rcases ih acc with ⟨hfold, hle⟩ | ⟨l₁, x, l₂, hsplit, hfold, hlt, hl₁, hl₂⟩
      · left
        constructor
        · simpa [List.foldl_cons, if_neg hz] using hfold
        · intro y hy
          rcases List.mem_cons.mp hy with h | h
          · subst h; exact not_lt.mp hz
          · exact hle y h
      · right
        refine ⟨z :: l₁, x, l₂, by simp [hsplit], ?_, hlt, ?_, hl₂⟩
        · simpa [List.foldl_cons, if_neg hz] using hfold
        · intro y hy
          rcases List.mem_cons.mp hy with h | h
          · subst h; exact lt_of_le_of_lt (not_lt.mp hz) hlt
          · exact hl₁ y h

/-- C5: for every non-empty group (written `first :: others`, with `first`
playing `group[0]`), the selected target is a member of the group attaining
the maximal `document_count`; every member before it in group order has a
strictly smaller count (ties resolve to the earliest member); the target id
is not among the retiring ids; and the retiring ids together with the
target id are exactly the ids of the group. -/
theorem selectTarget_spec (first : Entity) (others : List Entity) :
    reduceMaxTag first (first :: others) ∈ first :: others ∧
    (∀ e ∈ first :: others, docCount e ≤ docCount (reduceMaxTag first (first :: others))) ∧
    (∃ l₁ l₂, first :: others = l₁ ++ reduceMaxTag first (first :: others) :: l₂ ∧
      (∀ e ∈ l₁, docCount e < docCount (reduceMaxTag first (first :: others))) ∧
      (∀ e ∈ l₂, docCount e ≤ docCount (reduceMaxTag first (first :: others)))) ∧
    (reduceMaxTag first (first :: others)).id ∉
      (((first :: others).filter
        (fun tag => tag.id != (reduceMaxTag first (first :: others)).id)).map Entity.id) ∧
    (∀ i : Int, i ∈ (first :: others).map Entity.id ↔
      (i ∈ (((first :: others).filter
        (fun tag => tag.id != (reduceMaxTag first (first :: others)).id)).map Entity.id) ∨
        i = (reduceMaxTag first (first :: others)).id)) := by
  have hsplit := foldl_pick_split (first :: others) first
  have hred : reduceMaxTag first (first :: others)
      = (first :: others).foldl
          (fun maxTag tag => if docCount maxTag < docCount tag then tag else maxTag) first := by
    rfl
  have hmain : reduceMaxTag first (first :: others) ∈ first :: others ∧
      (∀ e ∈ first :: others, docCount e ≤ docCount (reduceMaxTag first (first :: others))) ∧
      (∃ l₁ l₂, first :: others = l₁ ++ reduceMaxTag first (first :: others) :: l₂ ∧
        (∀ e ∈ l₁, docCount e < docCount (reduceMaxTag first (first :: others))) ∧
        (∀ e ∈ l₂, docCount e ≤ docCount (reduceMaxTag first (first :: others)))) := by
    rw [hred]
    rcases hsplit with ⟨hfold, hle⟩ | ⟨l₁, x, l₂, hdecomp, hfold, hlt, hl₁, hl₂⟩
    · rw [hfold]
      refine ⟨by simp, hle, [], others, by simp, by simp, ?_⟩
      intro e he
      exact hle e (by simp [he])
    · rw [hfold]
      have hxmem : x ∈ first :: others := by
        rw [hdecomp]; exact List.mem_append_right _ (by simp)
      refine ⟨hxmem, ?_, l₁, l₂, hdecomp, hl₁, hl₂⟩
      intro e he
      rw [hdecomp] at he
      rcases List.mem_append.mp he with h | h
      · exact le_of_lt (hl₁ e h)
      · rcases List.mem_cons.mp h with h | h
        · subst h; exact le_rfl
        · exact hl₂ e h
  refine ⟨hmain.1, hmain.2.1, hmain.2.2, ?_, ?_⟩
  · intro hmem
    rcases List.mem_map.mp hmem with ⟨e, hme, hide⟩
    have := (List.mem_filter.mp hme).2
    rw [hide] at this
    simp at this
  · intro i
    constructor
    · intro hi
      rcases List.mem_map.mp hi with ⟨e, hme, hide⟩
      by_cases h : e.id = (reduceMaxTag first (first :: others)).id
      · right; rw [← hide, h]
      · left
        exact List.mem_map.mpr ⟨e, List.mem_filter.mpr ⟨hme, by simpa using h⟩, hide⟩
    · rintro (hi | hi)
      · rcases List.mem_map.mp hi with ⟨e, hme, hide⟩
        exact List.mem_map.mpr ⟨e, (List.mem_filter.mp hme).1, hide⟩
      · subst hi
        exact List.mem_map.mpr ⟨reduceMaxTag first (first :: others), hmain.1, rfl⟩

/-!
## Grouping invariants
-/

theorem scanSimilar_spec {σ : Type} (score : Entity → Entity → σ → ℚ × σ) (threshold : ℚ)
    (seed : Entity) :
    ∀ (rest : List (Nat × Entity)) (processed : List Nat) (st : σ),
      ∃ sub : List (Nat × Entity),
        sub.Sublist rest ∧
        (scanSimilar score threshold seed rest processed st).1 = sub.map Prod.snd ∧
        (∀ q ∈ sub, q.1 ∉ processed) ∧
        (∀ k : Nat, k ∈ (scanSimilar score threshold seed rest processed st).2.1 ↔
          (k ∈ sub.map Prod.fst ∨ k ∈ processed)) := by
  intro rest
  induction rest with
  | nil =>
    intro processed st
    exact ⟨[], by simp, by simp [scanSimilar], by simp, by simp [scanSimilar]⟩
  | cons q rest ih =>
    intro processed st
    obtain ⟨j, e⟩ := q
    by_cases hj : j ∈ processed
    · obtain ⟨sub, hsub, hes, hnp, hpiff⟩ := ih processed st
      exact ⟨sub, hsub.cons _, by simpa [scanSimilar, hj] using hes, hnp,
        by simpa [scanSimilar, hj] using hpiff⟩
    · rcases hsc : score seed e st with ⟨sim, st1⟩
      by_cases hth : threshold ≤ sim
      · obtain ⟨sub, hsub, hes, hnp, hpiff⟩ := ih (j :: processed) st1
        refine ⟨(j, e) :: sub, hsub.cons₂ _, ?_, ?_, ?_⟩
        · rcases hrec : scanSimilar score threshold seed rest (j :: processed) st1
            with ⟨es, p2, st2⟩
          rw [hrec] at hes
          simp only [scanSimilar, hj, if_neg hj, hsc, hth, if_pos hth, hrec]
          simpa using hes
        · intro q hq
          rcases List.mem_cons.mp hq with h | h
          · subst h; exact hj
          · intro hmem
            exact hnp q h (List.mem_cons_of_mem _ hmem)
        · intro k
          rcases hrec : scanSimilar score threshold seed rest (j :: processed) st1
            with ⟨es, p2, st2⟩
          rw [hrec] at hpiff
          have hpk := hpiff k
          simp only [List.mem_cons] at hpk
          simp only [scanSimilar, if_neg hj, hsc, if_pos hth, hrec, List.map_cons,
            List.mem_cons]
          rw [hpk]
          tauto
      · obtain ⟨sub, hsub, hes, hnp, hpiff⟩ := ih processed st1
        exact ⟨sub, hsub.cons _, by simpa [scanSimilar, hj, hsc, hth] using hes, hnp,
          by simpa [scanSimilar, hj, hsc, hth] using hpiff⟩

theorem groupLoop_spec {σ : Type} (score : Entity → Entity → σ → ℚ × σ) (threshold : ℚ) :
    ∀ (items : List (Nat × Entity)) (processed : List Nat) (st : σ),
      (items.map Prod.fst).Nodup →
      ∃ subs : List (List (Nat × Entity)),
        (groupLoop score threshold items processed st).1 = subs.map (List.map Prod.snd) ∧
        (∀ g ∈ subs, 2 ≤ g.length) ∧
        (subs.flatten.map Prod.fst).Nodup ∧
        (∀ q ∈ subs.flatten, q.1 ∉ processed) ∧
        (∀ q ∈ subs.flatten, q ∈ items) := by
  intro items
  induction items with
  | nil =>
    intro processed st _
    exact ⟨[], by simp [groupLoop], by simp, by simp, by simp, by simp⟩
  | cons q rest ih =>
    intro processed st hnd
    obtain ⟨i, e⟩ := q
    have hndcons : (i :: rest.map Prod.fst).Nodup := by
      simpa only [List.map_cons] using hnd
    have hndc := List.nodup_cons.mp hndcons
    have hi_rest : i ∉ rest.map Prod.fst := hndc.1
    have hndr : (rest.map Prod.fst).Nodup := hndc.2
    by_cases hi : i ∈ processed
    · obtain ⟨subs, h1, h2, h3, h4, h5⟩ := ih processed st hndr
      exact ⟨subs, by simpa [groupLoop, hi] using h1, h2, h3, h4,
        fun q hq => List.mem_cons_of_mem _ (h5 q hq)⟩
    · obtain ⟨sub, hsub, hes, hnp, hpiff⟩ :=
        scanSimilar_spec score threshold e rest (i :: processed) st
      rcases hscan : scanSimilar score threshold e rest (i :: processed) st
        with ⟨similar, p1, st1⟩
      rw [hscan] at hes hpiff
      have hes1 : similar = sub.map Prod.snd := hes
      have hp1 : ∀ k : Nat, k ∈ p1 ↔ (k ∈ sub.map Prod.fst ∨ k = i ∨ k ∈ processed) := by
        intro k
        have := hpiff k
        simpa [List.mem_cons] using this
      obtain ⟨subs, h1, h2, h3, h4, h5⟩ := ih p1 st1 hndr
      rcases hgl : groupLoop score threshold rest p1 st1 with ⟨gs, p2, st2⟩
      rw [hgl] at h1
      have h1g : gs = subs.map (List.map Prod.snd) := h1
      have hsubfst : ∀ k ∈ sub.map Prod.fst, k ∈ rest.map Prod.fst := fun k hk =>
        (hsub.map Prod.fst).mem hk
      by_cases hlen : 1 < (e :: similar).length
      · refine ⟨((i, e) :: sub) :: subs, ?_, ?_, ?_, ?_, ?_⟩
        · simp only [groupLoop, if_neg hi, hscan, hgl, if_pos hlen, List.map_cons]
          rw [h1g, hes1]
        · intro g hg
          rcases List.mem_cons.mp hg with h | h
          · subst h
            have : similar ≠ [] := by
              intro hnil
              rw [hnil] at hlen
              simp at hlen
            have : sub ≠ [] := by
              intro hnil
              rw [hnil] at hes1
              exact this (by simpa using hes1)
            cases sub with
            | nil => exact absurd rfl this
            | cons a l => simp
          · exact h2 g h
        · simp only [List.flatten_cons, List.map_append, List.map_cons]
          apply List.Nodup.append
          · apply List.nodup_cons.mpr
            refine ⟨fun hmem => hi_rest (hsubfst i hmem), ?_⟩
            exact (hsub.map Prod.fst).nodup hndr
          · exact h3
          · intro x hx hx2
            have hxp1 : x ∈ p1 := by
              rcases List.mem_cons.mp hx with h | h
              · exact (hp1 x).mpr (Or.inr (Or.inl h))
              · exact (hp1 x).mpr (Or.inl h)
            rcases List.mem_map.mp hx2 with ⟨q, hq, hqx⟩
            exact h4 q hq (hqx ▸ hxp1)
        · intro q hq
          have hq2 : q ∈ ((i, e) :: sub) ++ subs.flatten := by
            simpa only [List.flatten_cons] using hq
          rcases List.mem_append.mp hq2 with h | h
          · rcases List.mem_cons.mp h with h | h
            · subst h; exact hi
            · intro hmem
              exact hnp q h (List.mem_cons_of_mem _ hmem)
          · intro hmem
            exact h4 q h ((hp1 q.1).mpr (Or.inr (Or.inr hmem)))
        · intro q hq
          have hq2 : q ∈ ((i, e) :: sub) ++ subs.flatten := by
            simpa only [List.flatten_cons] using hq
          rcases List.mem_append.mp hq2 with h | h
          · rcases List.mem_cons.mp h with h | h
            · subst h; simp
            · exact List.mem_cons_of_mem _ (hsub.mem h)
          · exact List.mem_cons_of_mem _ (h5 q h)
      · refine ⟨subs, ?_, h2, h3, ?_, fun q hq => List.mem_cons_of_mem _ (h5 q hq)⟩
        · simp only [groupLoop, if_neg hi, hscan, hgl, if_neg hlen]
          exact h1g
        · intro q hq hmem
          exact h4 q hq ((hp1 q.1).mpr (Or.inr (Or.inr hmem)))

theorem findSimilarEntitiesG_spec {σ : Type} (score : Entity → Entity → σ → ℚ × σ)
    (entities : List Entity) (threshold : ℚ) (st : σ) :
    (∀ g ∈ (findSimilarEntitiesG score entities threshold st).1, 2 ≤ g.length) ∧
    (entities.Nodup → (findSimilarEntitiesG score entities threshold st).1.flatten.Nodup) := by
  obtain ⟨subs, h1, h2, h3, _h4, h5⟩ :=
    groupLoop_spec score threshold entities.enum [] st
      (by rw [List.enum_map_fst]; exact List.nodup_range _)
  rcases hgl : groupLoop score threshold entities.enum [] st with ⟨gs, p, st1⟩
  rw [hgl] at h1
  have h1g : gs = subs.map (List.map Prod.snd) := h1
  have hres : (findSimilarEntitiesG score entities threshold st).1 = gs := by
    simp [findSimilarEntitiesG, hgl]
  rw [hres, h1g]
  constructor
  · intro g hg
    rcases List.mem_map.mp hg with ⟨sg, hsg, rfl⟩
    simpa using h2 sg hsg
  · intro hnodup
    rw [← List.map_flatten]
    have hflat : subs.flatten.Nodup := List.Nodup.of_map Prod.fst h3
    apply hflat.map_on
    intro x hx y hy hxy
    have hxe := h5 x hx
    have hye := h5 y hy
    have henum : (entities.enum.map Prod.snd).Nodup := by
      rw [List.enum_map_snd]; exact hnodup
    exact List.inj_on_of_nodup_map henum hxe hye hxy

theorem findIdx_id_of_get (aEnt : Entity) :
    ∀ (l : List Entity) (j i0 : Nat), (l.map Entity.id).Nodup → l.get? j = some aEnt →
      List.findIdx? (fun e => e.id == aEnt.id) l i0 = some (i0 + j) := by
  intro l
  induction l with
  | nil => intro j i0 _ hget; simp [List.get?] at hget
  | cons x xs ih =>
    intro j i0 hnd hget
    have hndc := List.nodup_cons.mp (by simpa only [List.map_cons] using hnd)
    cases j with
    | zero =>
      have hx : x = aEnt := by simpa [List.get?] using hget
      subst hx
      rw [List.findIdx?_cons, if_pos (by simp)]
      simp
    | succ k =>
      have hgetk : xs.get? k = some aEnt := by simpa [List.get?] using hget
      have hmem : aEnt ∈ xs := List.get?_mem hgetk
      have hne : ¬ (x.id == aEnt.id) = true := by
        simp only [beq_iff_eq]
        intro hxa
        exact hndc.1 (hxa ▸ List.mem_map.mpr ⟨aEnt, hmem, rfl⟩)
      rw [List.findIdx?_cons, if_neg hne]
      have := ih k (i0 + 1) hndc.2 hgetk
      rw [this]
      congr 1
      omega

theorem fuseScan_spec (entities : List Entity) (maxScore : ℚ) :
    ∀ (results : List (Entity × ℚ)) (processed : List Nat),
      ∃ sub : List (Nat × Entity),
        (fuseScan entities maxScore results processed).1 = sub.map Prod.snd ∧
        (sub.map Prod.fst).Nodup ∧
        (∀ q ∈ sub, q.1 ∉ processed) ∧
        (∀ q ∈ sub, List.findIdx? (fun e => e.id == q.2.id) entities = some q.1) ∧
        (∀ k : Nat, k ∈ (fuseScan entities maxScore results processed).2 ↔
          (k ∈ sub.map Prod.fst ∨ k ∈ processed)) := by
  intro results
  induction results with
  | nil =>
    intro processed
    exact ⟨[], by simp [fuseScan], by simp, by simp, by simp, by simp [fuseScan]⟩
  | cons r results ih =>
    intro processed
    obtain ⟨item, score⟩ := r
    by_cases hs : score ≤ maxScore
    · rcases hidx : List.findIdx? (fun e => e.id == item.id) entities with _ | tIdx
      · obtain ⟨sub, h1, h2, h3, h4, h5⟩ := ih processed
        exact ⟨sub, by simpa [fuseScan, hs, hidx] using h1, h2, h3, h4,
          by simpa [fuseScan, hs, hidx] using h5⟩
      · by_cases ht : tIdx ∈ processed
        · obtain ⟨sub, h1, h2, h3, h4, h5⟩ := ih processed
          exact ⟨sub, by simpa [fuseScan, hs, hidx, ht] using h1, h2, h3, h4,
            by simpa [fuseScan, hs, hidx, ht] using h5⟩
        · obtain ⟨sub, h1, h2, h3, h4, h5⟩ := ih (tIdx :: processed)
          refine ⟨(tIdx, item) :: sub, ?_, ?_, ?_, ?_, ?_⟩
          · rcases hrec : fuseScan entities maxScore results (tIdx :: processed)
              with ⟨es, p2⟩
            rw [hrec] at h1
            simp only [fuseScan, hs, if_pos hs, hidx, ht, if_neg ht, hrec, List.map_cons]
            simpa using h1
          · apply List.nodup_cons.mpr
            refine ⟨?_, h2⟩
            intro hmem
            rcases List.mem_map.mp hmem with ⟨q, hq, hqx⟩
            exact h3 q hq (hqx ▸ List.mem_cons_self _ _)
          · intro q hq
            rcases List.mem_cons.mp hq with h | h
            · subst h; exact ht
            · intro hmem
              exact h3 q h (List.mem_cons_of_mem _ hmem)
          · intro q hq
            rcases List.mem_cons.mp hq with h | h
            · subst h; exact hidx
            · exact h4 q h
          · intro k
            rcases hrec : fuseScan entities maxScore results (tIdx :: processed)
              with ⟨es, p2⟩
            rw [hrec] at h5
            have hpk := h5 k
            simp only [List.mem_cons] at hpk
            simp only [fuseScan, hs, if_pos hs, hidx, ht, if_neg ht, hrec, List.map_cons,
              List.mem_cons, if_true, if_false]
            rw [hpk]
            tauto
    · obtain ⟨sub, h1, h2, h3, h4, h5⟩ := ih processed
      exact ⟨sub, by simpa [fuseScan, hs] using h1, h2, h3, h4,
        by simpa [fuseScan, hs] using h5⟩

theorem fuseLoop_spec (oracle : List Entity → Str → List (Entity × ℚ))
    (entities : List Entity) (threshold : ℚ)
    (hids : (entities.map Entity.id).Nodup) :
    ∀ (items : List (Nat × Entity)) (processed : List Nat),
      (∀ q ∈ items, q ∈ entities.enum) →
      ∃ subs : List (List (Nat × Entity)),
        (fuseLoop oracle entities threshold items processed).1
          = subs.map (List.map Prod.snd) ∧
        (∀ g ∈ subs, 2 ≤ g.length) ∧
        (subs.flatten.map Prod.fst).Nodup ∧
        (∀ q ∈ subs.flatten, q.1 ∉ processed) ∧
        (∀ q ∈ subs.flatten, List.findIdx? (fun e => e.id == q.2.id) entities = some q.1) := by
  intro items
  induction items with
  | nil =>
    intro processed _
    exact ⟨[], by simp [fuseLoop], by simp, by simp, by simp, by simp⟩
  | cons q rest ih =>
    intro processed hmem
    obtain ⟨gi, cur⟩ := q
    by_cases hi : gi ∈ processed
    · obtain ⟨subs, h1, h2, h3, h4, h5⟩ := ih processed (fun q hq => hmem q (by simp [hq]))
      exact ⟨subs, by simpa [fuseLoop, hi] using h1, h2, h3, h4, h5⟩
    · have hseed : List.findIdx? (fun e => e.id == cur.id) entities = some gi := by
        have henum : (gi, cur) ∈ entities.enum := hmem (gi, cur) (by simp)
        have hget : entities.get? gi = some cur := List.mem_enum_iff_get?.mp henum
        have := findIdx_id_of_get cur entities gi 0 hids hget
        simpa using this
      obtain ⟨sub, hs1, hs2, hs3, hs4, hs5⟩ :=
        fuseScan_spec entities (1 - threshold)
          (oracle ((entities.enum.filter
            (fun p => p.1 != gi && !(processed.contains p.1))).map (·.2))
            (toLowerStr cur.name))
          (gi :: processed)
      rcases hscan : fuseScan entities (1 - threshold)
          (oracle ((entities.enum.filter
            (fun p => p.1 != gi && !(processed.contains p.1))).map (·.2))
            (toLowerStr cur.name))
          (gi :: processed) with ⟨similar, p1⟩
      rw [hscan] at hs1 hs5
      have hs1e : similar = sub.map Prod.snd := hs1
      have hp1 : ∀ k : Nat, k ∈ p1 ↔ (k ∈ sub.map Prod.fst ∨ k = gi ∨ k ∈ processed) := by
        intro k
        have := hs5 k
        simpa [List.mem_cons] using this
      obtain ⟨subs, h1, h2, h3, h4, h5⟩ := ih p1 (fun q hq => hmem q (by simp [hq]))
      rcases hfl : fuseLoop oracle entities threshold rest p1 with ⟨gs, p2⟩
      rw [hfl] at h1
      have h1g : gs = subs.map (List.map Prod.snd) := h1
      by_cases hlen : 1 < (cur :: similar).length
      · refine ⟨((gi, cur) :: sub) :: subs, ?_, ?_, ?_, ?_, ?_⟩
        · simp only [fuseLoop, if_neg hi, hscan, hfl, if_pos hlen, List.map_cons]
          rw [h1g, hs1e]
        · intro g hg
          rcases List.mem_cons.mp hg with h | h
          · subst h
            have hne : sub ≠ [] := by
              intro hnil
              rw [hnil] at hs1e
              rw [hs1e] at hlen
              simp at hlen
            cases sub with
            | nil => exact absurd rfl hne
            | cons a l => simp
          · exact h2 g h
        · simp only [List.flatten_cons, List.map_append, List.map_cons]
          apply List.Nodup.append
          · apply List.nodup_cons.mpr
            refine ⟨?_, hs2⟩
            intro hmem2
            rcases List.mem_map.mp hmem2 with ⟨q, hq, hqx⟩
            exact hs3 q hq (hqx ▸ List.mem_cons_self _ _)
          · exact h3
          · intro x hx hx2
            have hxp1 : x ∈ p1 := by
              rcases List.mem_cons.mp hx with h | h
              · exact (hp1 x).mpr (Or.inr (Or.inl h))
              · exact (hp1 x).mpr (Or.inl h)
            rcases List.mem_map.mp hx2 with ⟨q, hq, hqx⟩
            exact h4 q hq (hqx ▸ hxp1)
        · intro q hq
          have hq2 : q ∈ ((gi, cur) :: sub) ++ subs.flatten := by
            simpa only [List.flatten_cons] using hq
          rcases List.mem_append.mp hq2 with h | h
          · rcases List.mem_cons.mp h with h | h
            · subst h; exact hi
            · intro hmem2
              exact hs3 q h (List.mem_cons_of_mem _ hmem2)
          · intro hmem2
            exact h4 q h ((hp1 q.1).mpr (Or.inr (Or.inr hmem2)))
        · intro q hq
          have hq2 : q ∈ ((gi, cur) :: sub) ++ subs.flatten := by
            simpa only [List.flatten_cons] using hq
          rcases List.mem_append.mp hq2 with h | h
          · rcases List.mem_cons.mp h with h | h
            · subst h; exact hseed
            · exact hs4 q h
          · exact h5 q h
      · refine ⟨subs, ?_, h2, h3, ?_, h5⟩
        · simp only [fuseLoop, if_neg hi, hscan, hfl, if_neg hlen]
          exact h1g
        · intro q hq hmem2
          exact h4 q hq ((hp1 q.1).mpr (Or.inr (Or.inr hmem2)))

theorem findSimilarEntitiesOptimizedG_spec {σ : Type} (score : Entity → Entity → σ → ℚ × σ)
    (oracle : List Entity → Str → List (Entity × ℚ)) (entities : List Entity)
    (threshold : ℚ) (useAdvancedAlgorithm : Bool) (st : σ)
    (hids : (entities.map Entity.id).Nodup) :
    (∀ g ∈ (findSimilarEntitiesOptimizedG score oracle entities threshold
        useAdvancedAlgorithm st).1, 2 ≤ g.length) ∧
    (findSimilarEntitiesOptimizedG score oracle entities threshold
        useAdvancedAlgorithm st).1.flatten.Nodup := by
  have hnodup : entities.Nodup := List.Nodup.of_map Entity.id hids
  by_cases hempty : entities.isEmpty
  · constructor <;> simp [findSimilarEntitiesOptimizedG, hempty]
  · by_cases hbranch : (!useAdvancedAlgorithm || entities.length < 5000) = true
    · have hfse := findSimilarEntitiesG_spec score entities threshold st
      constructor
      · intro g hg
        apply hfse.1 g
        simpa [findSimilarEntitiesOptimizedG, hempty, hbranch] using hg
      · have := hfse.2 hnodup
        simpa [findSimilarEntitiesOptimizedG, hempty, hbranch] using this
    · obtain ⟨subs, h1, h2, h3, _h4, h5⟩ :=
        fuseLoop_spec oracle entities threshold hids entities.enum [] (fun q hq => hq)
      rcases hfl : fuseLoop oracle entities threshold entities.enum [] with ⟨gs, p⟩
      rw [hfl] at h1
      have h1g : gs = subs.map (List.map Prod.snd) := h1
      have hres : (findSimilarEntitiesOptimizedG score oracle entities threshold
          useAdvancedAlgorithm st).1 = gs := by
        simp [findSimilarEntitiesOptimizedG, hempty, hbranch, hfl]
      rw [hres, h1g]
      constructor
      · intro g hg
        rcases List.mem_map.mp hg with ⟨sg, hsg, rfl⟩
        simpa using h2 sg hsg
      · rw [← List.map_flatten]
        have hflat : subs.flatten.Nodup := List.Nodup.of_map Prod.fst h3
        apply hflat.map_on
        intro x hx y hy hxy
        have hfx := h5 x hx
        have hfy := h5 y hy
        rw [hxy] at hfx
        have hfst : x.1 = y.1 := by
          rw [hfx] at hfy
          exact (Option.some.injEq _ _).mp hfy.symm ▸ rfl
        obtain ⟨x1, x2⟩ := x
        obtain ⟨y1, y2⟩ := y
        simp only at hfst hxy
        rw [hfst, hxy]

theorem tagScanSimilar_spec {σ : Type} (score : Str → Str → σ → ℚ × σ) (threshold : ℚ)
    (tagName : Str) :
    ∀ (rest : List Entity) (processed : List Int) (st : σ),
      ∃ sub : List Entity,
        sub.Sublist rest ∧
        (tagScanSimilar score threshold tagName rest processed st).1 = sub ∧
        (∀ e ∈ sub, e.id ∉ processed) ∧
        (∀ k : Int, k ∈ (tagScanSimilar score threshold tagName rest processed st).2.1 ↔
          (k ∈ sub.map Entity.id ∨ k ∈ processed)) := by
  intro rest
  induction rest with
  | nil =>
    intro processed st
    exact ⟨[], by simp, by simp [tagScanSimilar], by simp, by simp [tagScanSimilar]⟩
  | cons e rest ih =>
    intro processed st
    by_cases hj : e.id ∈ processed
    · obtain ⟨sub, hsub, hes, hnp, hpiff⟩ := ih processed st
      exact ⟨sub, hsub.cons _, by simpa [tagScanSimilar, hj] using hes, hnp,
        by simpa [tagScanSimilar, hj] using hpiff⟩
    · rcases hsc : score tagName e.name st with ⟨sim, st1⟩
      by_cases hth : threshold ≤ sim
      · obtain ⟨sub, hsub, hes, hnp, hpiff⟩ := ih (e.id :: processed) st1
        refine ⟨e :: sub, hsub.cons₂ _, ?_, ?_, ?_⟩
        · rcases hrec : tagScanSimilar score threshold tagName rest (e.id :: processed) st1
            with ⟨es, p2, st2⟩
          rw [hrec] at hes
          simp only [tagScanSimilar, if_neg hj, hsc, if_pos hth, hrec]
          simpa using hes
        · intro q hq
          rcases List.mem_cons.mp hq with h | h
          · subst h; exact hj
          · intro hmem
            exact hnp q h (List.mem_cons_of_mem _ hmem)
        · intro k
          rcases hrec : tagScanSimilar score threshold tagName rest (e.id :: processed) st1
            with ⟨es, p2, st2⟩
          rw [hrec] at hpiff
          have hpk := hpiff k
          simp only [List.mem_cons] at hpk
          simp only [tagScanSimilar, if_neg hj, hsc, if_pos hth, hrec, List.map_cons,
            List.mem_cons, if_true, if_false]
          rw [hpk]
          tauto
      · obtain ⟨sub, hsub, hes, hnp, hpiff⟩ := ih processed st1
        exact ⟨sub, hsub.cons _, by simpa [tagScanSimilar, hj, hsc, hth] using hes, hnp,
          by simpa [tagScanSimilar, hj, hsc, hth] using hpiff⟩

theorem tagGroupLoop_spec {σ : Type} (score : Str → Str → σ → ℚ × σ) (threshold : ℚ) :
    ∀ (items : List Entity) (processed : List Int) (st : σ),
      (items.map Entity.id).Nodup →
      ∃ subs : List (List Entity),
        (tagGroupLoop score threshold items processed st).1 = subs ∧
        (∀ g ∈ subs, 1 ≤ g.length) ∧
        (subs.flatten.map Entity.id).Nodup ∧
        (∀ e ∈ subs.flatten, e.id ∉ processed) ∧
        (∀ e ∈ subs.flatten, e ∈ items) := by
  intro items
  induction items with
  | nil =>
    intro processed st _
    exact ⟨[], by simp [tagGroupLoop], by simp, by simp, by simp, by simp⟩
  | cons tag rest ih =>
    intro processed st hnd
    have hndc := List.nodup_cons.mp (by simpa only [List.map_cons] using hnd)
    have hid_rest : tag.id ∉ rest.map Entity.id := hndc.1
    have hndr : (rest.map Entity.id).Nodup := hndc.2
    by_cases hi : tag.id ∈ processed
    · obtain ⟨subs, h1, h2, h3, h4, h5⟩ := ih processed st hndr
      exact ⟨subs, by simpa [tagGroupLoop, hi] using h1, h2, h3, h4,
        fun q hq => List.mem_cons_of_mem _ (h5 q hq)⟩
    · obtain ⟨sub, hsub, hes, hnp, hpiff⟩ :=
        tagScanSimilar_spec score threshold tag.name rest (tag.id :: processed) st
      rcases hscan : tagScanSimilar score threshold tag.name rest (tag.id :: processed) st
        with ⟨similar, p1, st1⟩
      rw [hscan] at hes hpiff
      have hes1 : similar = sub := hes
      have hp1 : ∀ k : Int, k ∈ p1 ↔ (k ∈ sub.map Entity.id ∨ k = tag.id ∨ k ∈ processed) := by
        intro k
        have := hpiff k
        simpa [List.mem_cons] using this
      obtain ⟨subs, h1, h2, h3, h4, h5⟩ := ih p1 st1 hndr
      rcases hgl : tagGroupLoop score threshold rest p1 st1 with ⟨gs, p2, st2⟩
      rw [hgl] at h1
      have h1g : gs = subs := h1
      have hsubid : ∀ k ∈ sub.map Entity.id, k ∈ rest.map Entity.id := fun k hk =>
        (hsub.map Entity.id).mem hk
      refine ⟨(tag :: sub) :: subs, ?_, ?_, ?_, ?_, ?_⟩
      · have hlen : 0 < (tag :: similar).length := by simp
        simp only [tagGroupLoop, if_neg hi, hscan, hgl, if_pos hlen]
        rw [h1g, hes1]
      · intro g hg
        rcases List.mem_cons.mp hg with h | h
        · subst h; simp
        · exact h2 g h
      · simp only [List.flatten_cons, List.map_append, List.map_cons]
        apply List.Nodup.append
        · apply List.nodup_cons.mpr
          refine ⟨fun hmem => hid_rest (hsubid tag.id hmem), ?_⟩
          exact (hsub.map Entity.id).nodup hndr
        · exact h3
        · intro x hx hx2
          have hxp1 : x ∈ p1 := by
            rcases List.mem_cons.mp hx with h | h
            · exact (hp1 x).mpr (Or.inr (Or.inl h))
            · exact (hp1 x).mpr (Or.inl h)
          rcases List.mem_map.mp hx2 with ⟨q, hq, hqx⟩
          exact h4 q hq (hqx ▸ hxp1)
      · intro q hq
        have hq2 : q ∈ (tag :: sub) ++ subs.flatten := by
          simpa only [List.flatten_cons] using hq
        rcases List.mem_append.mp hq2 with h | h
        · rcases List.mem_cons.mp h with h | h
          · subst h; exact hi
          · intro hmem
            exact hnp q h (List.mem_cons_of_mem _ hmem)
        · intro hmem
          exact h4 q h ((hp1 q.id).mpr (Or.inr (Or.inr hmem)))
      · intro q hq
        have hq2 : q ∈ (tag :: sub) ++ subs.flatten := by
          simpa only [List.flatten_cons] using hq
        rcases List.mem_append.mp hq2 with h | h
        · rcases List.mem_cons.mp h with h | h
          · subst h; simp
          · exact List.mem_cons_of_mem _ (hsub.mem h)
        · exact List.mem_cons_of_mem _ (h5 q h)

/-- C1 (amended): for any scorer and oracle, every group returned by
`findSimilarEntities` and by `findSimilarEntitiesOptimized` (either branch)
has size at least 2, and on inputs with pairwise distinct entities
(distinct ids for the optimized variant, whose Fuse branch resolves items
by id) no entity appears in more than one returned group — the flattened
result has no duplicates.  `groupSimilarTags` keeps every tag id in at most
one group, but its `length > 0` push condition also emits singleton groups,
so its groups are only guaranteed size at least 1, not 2. -/
theorem grouping_group_invariants :
    (∀ (σ : Type) (score : Entity → Entity → σ → ℚ × σ) (entities : List Entity)
        (threshold : ℚ) (st : σ),
      (∀ g ∈ (findSimilarEntitiesG score entities threshold st).1, 2 ≤ g.length) ∧
      (entities.Nodup →
        (findSimilarEntitiesG score entities threshold st).1.flatten.Nodup)) ∧
    (∀ (σ : Type) (score : Entity → Entity → σ → ℚ × σ)
        (oracle : List Entity → Str → List (Entity × ℚ)) (entities : List Entity)
        (threshold : ℚ) (useAdvancedAlgorithm : Bool) (st : σ),
      (entities.map Entity.id).Nodup →
      (∀ g ∈ (findSimilarEntitiesOptimizedG score oracle entities threshold
          useAdvancedAlgorithm st).1, 2 ≤ g.length) ∧
      (findSimilarEntitiesOptimizedG score oracle entities threshold
          useAdvancedAlgorithm st).1.flatten.Nodup) ∧
    (∀ (threshold : ℚ) (tags : List Entity),
      (tags.map Entity.id).Nodup →
      (∀ g ∈ groupSimilarTags threshold tags, 1 ≤ g.length) ∧
      ((groupSimilarTags threshold tags).flatten.map Entity.id).Nodup) := by
  refine ⟨?_, ?_, ?_⟩
  · intro σ score entities threshold st
    exact findSimilarEntitiesG_spec score entities threshold st
  · intro σ score oracle entities threshold useAdvancedAlgorithm st hids
    exact findSimilarEntitiesOptimizedG_spec score oracle entities threshold
      useAdvancedAlgorithm st hids
  · intro threshold tags hids
    obtain ⟨subs, h1, h2, h3, _h4, _h5⟩ :=
      tagGroupLoop_spec (fun a b (u : Unit) => (tagMergerCalculateSimilarity a b, u))
        threshold tags [] () hids
    rcases hgl : tagGroupLoop (fun a b (u : Unit) => (tagMergerCalculateSimilarity a b, u))
        threshold tags [] () with ⟨gs, p, u⟩
    rw [hgl] at h1
    have h1g : gs = subs := h1
    have hres : groupSimilarTags threshold tags = gs := by
      simp [groupSimilarTags, hgl]
    rw [hres, h1g]
    exact ⟨h2, h3⟩

/-- C1 counterexample: `groupSimilarTags` on the single tag (id 1, name
"tax") returns one group of size 1 — a singleton group, contradicting the
claim that each returned group has size at least 2. -/
theorem groupSimilarTags_emits_singleton :
    groupSimilarTags 1 [{ id := 1, name := ("tax").data, document_count := some 3 }]
      = [[{ id := 1, name := ("tax").data, document_count := some 3 }]] ∧
    ¬ (∀ g ∈ groupSimilarTags 1
        [{ id := 1, name := ("tax").data, document_count := some 3 }], 2 ≤ g.length) := by
  constructor
  · rfl
  · intro h
    have := h [{ id := 1, name := ("tax").data, document_count := some 3 }] (by decide)
    simp at this

/-- Witness for C1 at concrete inputs: a two-entity list with distinct ids
through the optimized grouper, and a singleton tag list through
`groupSimilarTags`. -/
theorem grouping_group_invariants_witness :
    (([⟨1, ("a").data, none⟩, ⟨2, ("b").data, none⟩] : List Entity).map Entity.id).Nodup ∧
    (findSimilarEntitiesOptimizedG (fun _ _ (u : Unit) => ((1 : ℚ), u)) (fun _ _ => [])
        [⟨1, ("a").data, none⟩, ⟨2, ("b").data, none⟩] 1 false ()).1.flatten.Nodup ∧
    (∀ g ∈ groupSimilarTags 1 [(⟨5, ("x").data, none⟩ : Entity)], 1 ≤ g.length) :=
  ⟨by decide,
   (grouping_group_invariants.2.1 Unit (fun _ _ (u : Unit) => ((1 : ℚ), u)) (fun _ _ => [])
      [⟨1, ("a").data, none⟩, ⟨2, ("b").data, none⟩] 1 false () (by decide)).2,
   (grouping_group_invariants.2.2 1 [(⟨5, ("x").data, none⟩ : Entity)] (by decide)).1⟩

/-!
## Threshold behaviour lemmas
-/

theorem scanSimilar_all {σ : Type} (score : Entity → Entity → σ → ℚ × σ) (threshold : ℚ)
    (seed : Entity) (hall : ∀ a b s, threshold ≤ (score a b s).1) :
    ∀ (rest : List (Nat × Entity)) (processed : List Nat) (st : σ),
      (∀ q ∈ rest, q.1 ∉ processed) → (rest.map Prod.fst).Nodup →
      (scanSimilar score threshold seed rest processed st).1 = rest.map Prod.snd := by
  intro rest
  induction rest with
  | nil => intro processed st _ _; simp [scanSimilar]
  | cons q rest ih =>
    intro processed st hnp hnd
    obtain ⟨j, e⟩ := q
    have hndc := List.nodup_cons.mp (by simpa only [List.map_cons] using hnd)
    have hj : j ∉ processed := hnp (j, e) (by simp)
    rcases hsc : score seed e st with ⟨sim, st1⟩
    have hth : threshold ≤ sim := by
      have := hall seed e st
      rw [hsc] at this
      exact this
    rcases hrec : scanSimilar score threshold seed rest (j :: processed) st1
      with ⟨es, p2, st2⟩
    have hih := ih (j :: processed) st1 ?_ hndc.2
    · rw [hrec] at hih
      have hihe : es = rest.map Prod.snd := hih
      simp only [scanSimilar, if_neg hj, hsc, if_pos hth, hrec, List.map_cons]
      rw [hihe]
    · intro q hq
      simp only [List.mem_cons]
      rintro (h | h)
      · exact hndc.1 (h ▸ List.mem_map.mpr ⟨q, hq, rfl⟩)
      · exact hnp q (List.mem_cons_of_mem _ hq) h

theorem scanSimilar_none {σ : Type} (score : Entity → Entity → σ → ℚ × σ) (threshold : ℚ)
    (seed : Entity) (hnone : ∀ a b s, ¬ threshold ≤ (score a b s).1) :
    ∀ (rest : List (Nat × Entity)) (processed : List Nat) (st : σ),
      (scanSimilar score threshold seed rest processed st).1 = [] ∧
      (scanSimilar score threshold seed rest processed st).2.1 = processed := by
  intro rest
  induction rest with
  | nil => intro processed st; simp [scanSimilar]
  | cons q rest ih =>
    intro processed st
    obtain ⟨j, e⟩ := q
    by_cases hj : j ∈ processed
    · have := ih processed st
      constructor
      · simpa [scanSimilar, hj] using this.1
      · simpa [scanSimilar, hj] using this.2
    · rcases hsc : score seed e st with ⟨sim, st1⟩
      have hth : ¬ threshold ≤ sim := by
        have := hnone seed e st
        rw [hsc] at this
        exact this
      have := ih processed st1
      constructor
      · simpa [scanSimilar, hj, hsc, hth] using this.1
      · simpa [scanSimilar, hj, hsc, hth] using this.2

theorem groupLoop_skip_all {σ : Type} (score : Entity → Entity → σ → ℚ × σ) (threshold : ℚ) :
    ∀ (items : List (Nat × Entity)) (processed : List Nat) (st : σ),
      (∀ q ∈ items, q.1 ∈ processed) →
      (groupLoop score threshold items processed st).1 = [] := by
  intro items
  induction items with
  | nil => intro processed st _; simp [groupLoop]
  | cons q rest ih =>
    intro processed st hall
    obtain ⟨i, e⟩ := q
    have hi : i ∈ processed := hall (i, e) (by simp)
    have := ih processed st (fun q hq => hall q (List.mem_cons_of_mem _ hq))
    simpa [groupLoop, hi] using this

theorem groupLoop_none {σ : Type} (score : Entity → Entity → σ → ℚ × σ) (threshold : ℚ)
    (hnone : ∀ a b s, ¬ threshold ≤ (score a b s).1) :
    ∀ (items : List (Nat × Entity)) (processed : List Nat) (st : σ),
      (groupLoop score threshold items processed st).1 = [] := by
  intro items
  induction items with
  | nil => intro processed st; simp [groupLoop]
  | cons q rest ih =>
    intro processed st
    obtain ⟨i, e⟩ := q
    by_cases hi : i ∈ processed
    · simpa [groupLoop, hi] using ih processed st
    · rcases hscan : scanSimilar score threshold e rest (i :: processed) st
        with ⟨similar, p1, st1⟩
      have hsn := scanSimilar_none score threshold e hnone rest (i :: processed) st
      rw [hscan] at hsn
      have hsim : similar = [] := hsn.1
      rcases hgl : groupLoop score threshold rest p1 st1 with ⟨gs, p2, st2⟩
      have hihg := ih p1 st1
      rw [hgl] at hihg
      have hlen : ¬ 1 < (e :: similar).length := by
        rw [hsim]
        simp
      simp only [groupLoop, if_neg hi, hscan, hgl, if_neg hlen]
      exact hihg

/-- C7 (amended): `findSimilarEntitiesOptimized` performs no threshold
validation: every threshold, including values outside [0,1], flows straight
into the comparison loop and grouping is attempted.  With any scorer
bounded in [0,1]: a threshold below 0 (standard branch, at least two
entities) groups the entire input into one group, and a threshold above 1
silently yields no groups; no ValidationError exists anywhere on the
path. -/
theorem threshold_not_validated :
    (∀ (σ : Type) (score : Entity → Entity → σ → ℚ × σ)
        (oracle : List Entity → Str → List (Entity × ℚ)) (entities : List Entity)
        (threshold : ℚ) (st : σ),
      threshold < 0 → (∀ a b s, 0 ≤ (score a b s).1) → 2 ≤ entities.length →
      (findSimilarEntitiesOptimizedG score oracle entities threshold false st).1
        = [entities]) ∧
    (∀ (σ : Type) (score : Entity → Entity → σ → ℚ × σ)
        (oracle : List Entity → Str → List (Entity × ℚ)) (entities : List Entity)
        (threshold : ℚ) (st : σ),
      1 < threshold → (∀ a b s, (score a b s).1 ≤ 1) →
      (findSimilarEntitiesOptimizedG score oracle entities threshold false st).1 = []) := by
  constructor
  · intro σ score oracle entities threshold st hthr hscore hlen
    have hall : ∀ a b s, threshold ≤ (score a b s).1 := fun a b s =>
      le_trans (le_of_lt hthr) (hscore a b s)
    cases entities with
    | nil => simp at hlen
    | cons e0 tl =>
      have hempty : ((e0 :: tl).isEmpty : Bool) = false := by simp
      have hcond1 : ∀ q ∈ tl.enumFrom 1, q.1 ∉ ([0] : List Nat) := by
        intro q hq
        have : q.1 ∈ (tl.enumFrom 1).map Prod.fst := List.mem_map.mpr ⟨q, hq, rfl⟩
        rw [List.enumFrom_map_fst] at this
        rcases List.mem_range'.mp this with ⟨i, _, hqi⟩
        simp [hqi]
      have hcond2 : ((tl.enumFrom 1).map Prod.fst).Nodup := by
        rw [List.enumFrom_map_fst]
        exact List.nodup_range' 1 tl.length
      rcases hscan : scanSimilar score threshold e0 (tl.enumFrom 1) [0] st
        with ⟨similar, p1, st1⟩
      have hsim : similar = tl := by
        have := scanSimilar_all score threshold e0 hall (tl.enumFrom 1) [0] st hcond1 hcond2
        rw [hscan] at this
        have h2 : similar = (tl.enumFrom 1).map Prod.snd := this
        rw [h2, List.enumFrom_map_snd]
      obtain ⟨sub, hsub, hes, _hnp, hpiff⟩ :=
        scanSimilar_spec score threshold e0 (tl.enumFrom 1) [0] st
      rw [hscan] at hes hpiff
      have hsublen : sub.length = (tl.enumFrom 1).length := by
        have hesl : similar = sub.map Prod.snd := hes
        have : tl.length = sub.length := by
          rw [← List.length_map sub Prod.snd, ← hesl, hsim]
        rw [List.enumFrom_length]
        omega
      have hsubeq : sub = tl.enumFrom 1 := hsub.eq_of_length hsublen
      have hp1cov : ∀ q ∈ tl.enumFrom 1, q.1 ∈ p1 := by
        intro q hq
        have := (hpiff q.1).mpr
        apply this
        left
        rw [hsubeq]
        exact List.mem_map.mpr ⟨q, hq, rfl⟩
      rcases hgl : groupLoop score threshold (tl.enumFrom 1) p1 st1 with ⟨gs, p2, st2⟩
      have hgs : gs = [] := by
        have := groupLoop_skip_all score threshold (tl.enumFrom 1) p1 st1 hp1cov
        rw [hgl] at this
        exact this
      have hglen : 1 < (e0 :: similar).length := by
        rw [hsim]
        simp only [List.length_cons] at hlen ⊢
        omega
      have hzero : (0 : Nat) ∉ ([] : List Nat) := by simp
      simp only [findSimilarEntitiesOptimizedG, hempty, Bool.false_eq_true, if_false,
        Bool.not_false, Bool.true_or, if_true, findSimilarEntitiesG, List.enum_cons,
        groupLoop, if_neg hzero, hscan, hgl, if_pos hglen]
      rw [hgs, hsim]
  · intro σ score oracle entities threshold st hthr hscore
    have hnone : ∀ a b s, ¬ threshold ≤ (score a b s).1 := by
      intro a b s hle
      exact absurd (le_trans hle (hscore a b s)) (not_le.mpr hthr)
    by_cases hempty : entities.isEmpty
    · simp [findSimilarEntitiesOptimizedG, hempty]
    · have := groupLoop_none score threshold hnone entities.enum [] st
      rcases hgl : groupLoop score threshold entities.enum [] st with ⟨gs, p, st1⟩
      rw [hgl] at this
      simp only [findSimilarEntitiesOptimizedG, hempty, Bool.not_false, Bool.true_or,
        if_true, if_false, findSimilarEntitiesG, hgl]
      simpa using this

/-- C7 counterexample: with threshold -1 (outside [0,1]) the optimized
grouper raises nothing and happily groups the two entities into one group;
with threshold 2 it silently returns no groups.  No ValidationError is
raised and grouping is attempted in both cases. -/
theorem threshold_out_of_range_not_rejected :
    (findSimilarEntitiesOptimizedG (fun _ _ (u : Unit) => ((0 : ℚ), u)) (fun _ _ => [])
        [⟨1, ("alpha").data, none⟩, ⟨2, ("beta").data, none⟩] (-1) false ()).1
      = [[⟨1, ("alpha").data, none⟩, ⟨2, ("beta").data, none⟩]] ∧
    (findSimilarEntitiesOptimizedG (fun _ _ (u : Unit) => ((0 : ℚ), u)) (fun _ _ => [])
        [⟨1, ("alpha").data, none⟩, ⟨2, ("beta").data, none⟩] 2 false ()).1 = [] := by
  constructor
  · decide
  · decide

/-- Witness for C7 at a concrete out-of-range threshold. -/
theorem threshold_not_validated_witness :
    ((-1 : ℚ) < 0 ∧ 2 ≤ ([⟨1, ("a").data, none⟩, ⟨2, ("b").data, none⟩] : List Entity).length) ∧
    (findSimilarEntitiesOptimizedG (fun _ _ (u : Unit) => ((0 : ℚ), u)) (fun _ _ => [])
        [⟨1, ("a").data, none⟩, ⟨2, ("b").data, none⟩] (-1) false ()).1
      = [[⟨1, ("a").data, none⟩, ⟨2, ("b").data, none⟩]] :=
  ⟨⟨by decide, by decide⟩,
   threshold_not_validated.1 Unit (fun _ _ (u : Unit) => ((0 : ℚ), u)) (fun _ _ => [])
     [⟨1, ("a").data, none⟩, ⟨2, ("b").data, none⟩] (-1) () (by decide)
     (fun _ _ _ => le_refl 0) (by decide)⟩

/-!
## Merge-executor theorems
-/

/-- C2: divergence of both merge paths from the claimed convergent state,
at the concrete plan (primary 10, retiring [20]) on a store with one
document (id 1, references [20]) and live tags [10, 20]: both paths read
`.results` off the bare array `getDocuments` returns and throw before any
write, so both return `false` and leave the document still referencing the
retiring 20 and never carrying the primary 10 — while the spec-reference
list `mergedTags` requires `[10]`.  The two paths do reach the same final
state, but only because neither performs any mutation at all. -/
theorem merge_paths_no_op_divergence :
    mergeTags (fun _ => false) (fun _ => false) 10 [20]
        ⟨[⟨1, [20]⟩], [10, 20]⟩ = (false, ⟨[⟨1, [20]⟩], [10, 20]⟩)
    ∧ enhancedMergeTags (fun _ => false) (fun _ => false) 10 [20]
        ⟨[⟨1, [20]⟩], [10, 20]⟩ = (false, ⟨[⟨1, [20]⟩], [10, 20]⟩)
    ∧ (∀ d ∈ ((mergeTags (fun _ => false) (fun _ => false) 10 [20]
        ⟨[⟨1, [20]⟩], [10, 20]⟩).2).docs, 20 ∈ d.tags ∧ 10 ∉ d.tags)
    ∧ (∀ d ∈ ((enhancedMergeTags (fun _ => false) (fun _ => false) 10 [20]
        ⟨[⟨1, [20]⟩], [10, 20]⟩).2).docs, 20 ∈ d.tags ∧ 10 ∉ d.tags)
    ∧ mergedTags 10 [20] [20] = [10] := by
  refine ⟨by decide, by decide, by decide, by decide, by decide⟩

/-- C3: applying a merge with the same plan twice yields the same final
document state as applying it once, on both paths and under every failure
injection — degenerately so: with a non-empty retiring set each
application throws on `response.results` before reaching a single
document, and with an empty retiring set each loop has no iterations, so
the store is untouched both times, no duplicate references are introduced,
the second application's writes are no-ops (there are none), and no
deletion is ever attempted, let alone errors. -/
theorem merge_idempotent (updFail delFail : Int → Bool) (target : Int)
    (srcs : List Int) (s : Store) :
    mergeTags updFail delFail target srcs ((mergeTags updFail delFail target srcs s).2)
      = mergeTags updFail delFail target srcs s
    ∧ enhancedMergeTags updFail delFail target srcs
        ((enhancedMergeTags updFail delFail target srcs s).2)
      = enhancedMergeTags updFail delFail target srcs s
    ∧ (mergeTags updFail delFail target srcs s).2 = s
    ∧ (enhancedMergeTags updFail delFail target srcs s).2 = s := by
  cases srcs with
  | nil => exact ⟨rfl, rfl, rfl, rfl⟩
  | cons r rest => exact ⟨rfl, rfl, rfl, rfl⟩

/-- C4: under every failure injection, neither merge path ever deletes a
retiring entity or touches a document — each path throws on
`response.results` before its first write, and the deletion step is
sequenced after the updates, so it is never reached.  In particular a
retiring entity whose document updates could not all be performed is never
deleted, and every retiring id that was live before the run is still live
after it. -/
theorem merge_partial_failure_safety (updFail delFail : Int → Bool) (target : Int)
    (srcs : List Int) (s : Store) :
    ((mergeTags updFail delFail target srcs s).2).tagIds = s.tagIds
    ∧ ((mergeTags updFail delFail target srcs s).2).docs = s.docs
    ∧ ((enhancedMergeTags updFail delFail target srcs s).2).tagIds = s.tagIds
    ∧ ((enhancedMergeTags updFail delFail target srcs s).2).docs = s.docs
    ∧ ∀ r ∈ srcs, r ∈ s.tagIds →
        r ∈ ((mergeTags updFail delFail target srcs s).2).tagIds
        ∧ r ∈ ((enhancedMergeTags updFail delFail target srcs s).2).tagIds := by
  cases srcs with
  | nil => exact ⟨rfl, rfl, rfl, rfl, fun r hr => absurd hr (List.not_mem_nil r)⟩
  | cons x rest => exact ⟨rfl, rfl, rfl, rfl, fun r _ hrtag => ⟨hrtag, hrtag⟩⟩

theorem dice_startTime (dice : Str → Str → ℚ) (a b : Str) (st : SimState) :
    ((calculateDiceCoefficient dice a b st).2).startTime = st.startTime := by
  unfold calculateDiceCoefficient
  cases h : st.cache.lookup (getCacheKey a b) with
  | none => simp only [h]
  | some v => simp only [h]

theorem scanSimilar_state_preserve {σ : Type} (score : Entity → Entity → σ → ℚ × σ)
    (P : σ → Prop) (hs : ∀ a b st, P st → P (score a b st).2) (threshold : ℚ)
    (seed : Entity) :
    ∀ (rest : List (Nat × Entity)) (processed : List Nat) (st : σ), P st →
      P (scanSimilar score threshold seed rest processed st).2.2 := by
  intro rest
  induction rest with
  | nil => intro processed st h; simpa [scanSimilar] using h
  | cons q rest ih =>
    intro processed st h
    obtain ⟨j, e⟩ := q
    by_cases hj : j ∈ processed
    · simpa [scanSimilar, hj] using ih processed st h
    · rcases hsc : score seed e st with ⟨sim, st1⟩
      have h1 : P st1 := by
        have h0 := hs seed e st h
        rw [hsc] at h0
        exact h0
      by_cases hth : threshold ≤ sim
      · rcases hrec : scanSimilar score threshold seed rest (j :: processed) st1
          with ⟨es, p2, st2⟩
        have h2 := ih (j :: processed) st1 h1
        rw [hrec] at h2
        simp only [scanSimilar, if_neg hj, hsc, if_pos hth, hrec]
        exact h2
      · simpa [scanSimilar, hj, hsc, hth] using ih processed st1 h1

theorem groupLoop_state_preserve {σ : Type} (score : Entity → Entity → σ → ℚ × σ)
    (P : σ → Prop) (hs : ∀ a b st, P st → P (score a b st).2) (threshold : ℚ) :
    ∀ (items : List (Nat × Entity)) (processed : List Nat) (st : σ), P st →
      P (groupLoop score threshold items processed st).2.2 := by
  intro items
  induction items with
  | nil => intro processed st h; simpa [groupLoop] using h
  | cons q rest ih =>
    intro processed st h
    obtain ⟨i, e⟩ := q
    by_cases hi : i ∈ processed
    · simpa [groupLoop, hi] using ih processed st h
    · rcases hscan : scanSimilar score threshold e rest (i :: processed) st
        with ⟨similar, p1, st1⟩
      have h1 := scanSimilar_state_preserve score P hs threshold e rest (i :: processed) st h
      rw [hscan] at h1
      rcases hrec : groupLoop score threshold rest p1 st1 with ⟨gs, p2, st2⟩
      have h2 := ih p1 st1 h1
      rw [hrec] at h2
      by_cases hlen : 1 < (e :: similar).length
      · simp only [groupLoop, if_neg hi, hscan, hrec, if_pos hlen]
        exact h2
      · simp only [groupLoop, if_neg hi, hscan, hrec, if_neg hlen]
        exact h2

theorem findSimilarEntitiesG_state_preserve {σ : Type}
    (score : Entity → Entity → σ → ℚ × σ) (P : σ → Prop)
    (hs : ∀ a b st, P st → P (score a b st).2) (entities : List Entity) (threshold : ℚ)
    (st : σ) (h : P st) :
    P (findSimilarEntitiesG score entities threshold st).2 := by
  have h1 := groupLoop_state_preserve score P hs threshold entities.enum [] st h
  rcases hg : groupLoop score threshold entities.enum [] st with ⟨gs, p, st1⟩
  rw [hg] at h1
  simp only [findSimilarEntitiesG, hg]
  exact h1

theorem findSimilarEntitiesOptimizedG_state_preserve {σ : Type}
    (score : Entity → Entity → σ → ℚ × σ)
    (oracle : List Entity → Str → List (Entity × ℚ)) (P : σ → Prop)
    (hs : ∀ a b st, P st → P (score a b st).2) (entities : List Entity) (threshold : ℚ)
    (useAdvancedAlgorithm : Bool) (st : σ) (h : P st) :
    P (findSimilarEntitiesOptimizedG score oracle entities threshold
        useAdvancedAlgorithm st).2 := by
  unfold findSimilarEntitiesOptimizedG
  by_cases he : entities.isEmpty
  · rw [if_pos he]
    exact h
  · rw [if_neg he]
    by_cases hb : (!useAdvancedAlgorithm || entities.length < 5000) = true
    · rw [if_pos hb]
      exact findSimilarEntitiesG_state_preserve score P hs entities threshold st h
    · rw [if_neg hb]
      rcases hf : fuseLoop oracle entities threshold entities.enum [] with ⟨gs, p⟩
      simp only [hf]
      exact h

/-- C10: on every execution of `processAndMergeTagsOptimized` — any inputs,
error path or success path — the `stats` object of the returned result has
`elapsedTime` equal to `null`: line 454 assigns `startTime`, but line 455
then calls `resetPerformance()`, which nulls it again, and nothing
re-assigns it before `getPerformanceStats` computes `elapsedTime` as
`endTime && startTime ? ... : null`. -/
theorem elapsedTime_always_none (dice : Str → Str → ℚ)
    (oracle : List Entity → Str → List (Entity × ℚ)) (updFail delFail : Int → Bool)
    (getTagsResult : Except Str (List Entity)) (t0 t1 : Int) (memoryUsage : ℚ)
    (threshold : ℚ) (useAdvancedAlgorithm : Bool) (st : SimState) (s : Store) :
    ((processAndMergeTagsOptimized dice oracle updFail delFail getTagsResult t0 t1
        memoryUsage threshold useAdvancedAlgorithm st s).1).stats.elapsedTime = none := by
  cases getTagsResult with
  | error e => rfl
  | ok tags =>
    have hpre := findSimilarEntitiesOptimizedG_state_preserve (diceScorer dice) oracle
      (fun st2 => st2.startTime = none)
      (fun a b st2 h2 => by
        show ((calculateDiceCoefficient dice _ _ st2).2).startTime = none
        rw [dice_startTime]
        exact h2)
      tags threshold useAdvancedAlgorithm freshSimState rfl
    rcases hg : findSimilarEntitiesOptimizedG (diceScorer dice) oracle tags threshold
        useAdvancedAlgorithm freshSimState with ⟨groups, st3⟩
    rw [hg] at hpre
    rcases hp : processGroups updFail delFail (sortGroupsByDocCount groups) s
      with ⟨cnt, det, s1⟩
    simp only [processAndMergeTagsOptimized, resetPerformance, hg, hp]
    simp only [getPerformanceStats]
    rw [hpre]

/-- C8, amended to the code's behaviour: the top-level batch merge always
returns a result object; the object is `{mergeCount, mergeDetails, error,
stats}` — there is no `success` flag and no `errors[]` aggregate.  Only a
failure of the initial tag listing reaches the outer catch and sets
`error`; on the listing-success path `error` is always absent, even when a
group's merge fails (every failure thrown inside `mergeTags` — in the
current code the TypeError on `response.results`, and any document-update
or entity-deletion failure behind it — is caught there and reported only
as `false`), and a failing group's merge does not abort the batch:
processing continues with the remaining groups on the store left by the
failed merge. -/
theorem mergeRun_result_shape (dice : Str → Str → ℚ)
    (oracle : List Entity → Str → List (Entity × ℚ)) (updFail delFail : Int → Bool)
    (t0 t1 : Int) (memoryUsage threshold : ℚ) (useAdvancedAlgorithm : Bool)
    (st : SimState) (s : Store) :
    (∀ e, (processAndMergeTagsOptimized dice oracle updFail delFail (.error e) t0 t1
          memoryUsage threshold useAdvancedAlgorithm st s).1
        = { mergeCount := 0, mergeDetails := [], error := some e,
            stats := getPerformanceStats memoryUsage freshSimState }
      ∧ (processAndMergeTagsOptimized dice oracle updFail delFail (.error e) t0 t1
          memoryUsage threshold useAdvancedAlgorithm st s).2.2 = s)
    ∧ (∀ tags, ((processAndMergeTagsOptimized dice oracle updFail delFail (.ok tags) t0 t1
          memoryUsage threshold useAdvancedAlgorithm st s).1).error = none)
    ∧ (∀ (first : Entity) (others : List Entity) (rest : List (List Entity)) (s2 : Store),
        1 < (first :: others).length →
        (enhancedMergeTags updFail delFail (reduceMaxTag first (first :: others)).id
          (((first :: others).filter
            (fun tag => tag.id != (reduceMaxTag first (first :: others)).id)).map (·.id))
          s2).1 = false →
        processGroups updFail delFail ((first :: others) :: rest) s2
          = processGroups updFail delFail rest
              ((enhancedMergeTags updFail delFail (reduceMaxTag first (first :: others)).id
                (((first :: others).filter
                  (fun tag => tag.id != (reduceMaxTag first (first :: others)).id)).map
                    (·.id)) s2).2)) := by
  refine ⟨fun e => ⟨rfl, rfl⟩, fun tags => rfl, ?_⟩
  intro first others rest s2 hlen hfail
  rcases henh : enhancedMergeTags updFail delFail (reduceMaxTag first (first :: others)).id
      (((first :: others).filter
        (fun tag => tag.id != (reduceMaxTag first (first :: others)).id)).map (·.id)) s2
    with ⟨succ, s3⟩
  rw [henh] at hfail
  have hsucc : succ = false := hfail
  subst hsucc
  rcases hrec : processGroups updFail delFail rest s3 with ⟨cnt, det, s4⟩
  simp only [processGroups, if_pos hlen, henh, hrec, Bool.false_eq_true, if_false]

theorem mergeRun_result_shape_witness :
    1 < ([(⟨20, "a".data, some 5⟩ : Entity), ⟨21, "b".data, some 3⟩]).length
    ∧ ((enhancedMergeTags (fun _ => false) (fun _ => true)
        (reduceMaxTag ⟨20, "a".data, some 5⟩
          [⟨20, "a".data, some 5⟩, ⟨21, "b".data, some 3⟩]).id
        ((([(⟨20, "a".data, some 5⟩ : Entity), ⟨21, "b".data, some 3⟩]).filter
          (fun tag => tag.id != (reduceMaxTag ⟨20, "a".data, some 5⟩
            [⟨20, "a".data, some 5⟩, ⟨21, "b".data, some 3⟩]).id)).map (·.id))
        ⟨[], [21]⟩).1 = false)
    ∧ processGroups (fun _ => false) (fun _ => true)
        [[⟨20, "a".data, some 5⟩, ⟨21, "b".data, some 3⟩]] ⟨[], [21]⟩
      = processGroups (fun _ => false) (fun _ => true) []
          ((enhancedMergeTags (fun _ => false) (fun _ => true)
            (reduceMaxTag ⟨20, "a".data, some 5⟩
              [⟨20, "a".data, some 5⟩, ⟨21, "b".data, some 3⟩]).id
            ((([(⟨20, "a".data, some 5⟩ : Entity), ⟨21, "b".data, some 3⟩]).filter
              (fun tag => tag.id != (reduceMaxTag ⟨20, "a".data, some 5⟩
                [⟨20, "a".data, some 5⟩, ⟨21, "b".data, some 3⟩]).id)).map (·.id))
            ⟨[], [21]⟩).2) :=
  ⟨by decide, by decide,
    (mergeRun_result_shape (fun _ _ => 1) (fun _ _ => []) (fun _ => false) (fun _ => true)
      0 0 0 1 false freshSimState ⟨[], [21]⟩).2.2
      ⟨20, "a".data, some 5⟩ [⟨21, "b".data, some 3⟩] [] ⟨[], [21]⟩
      (by decide) (by decide)⟩

theorem mergeRun_failure_invisible :
    (enhancedMergeTags (fun _ => false) (fun _ => true) 20 [21] ⟨[], [21]⟩).1 = false
    ∧ ((processAndMergeTagsOptimized (fun _ _ => 1) (fun _ _ => [])
        (fun _ => false) (fun _ => true)
        (.ok [⟨20, "a".data, some 5⟩, ⟨21, "b".data, some 3⟩]) 0 0 0 1 false
        freshSimState ⟨[], [21]⟩).1).error = none
    ∧ ((processAndMergeTagsOptimized (fun _ _ => 1) (fun _ _ => [])
        (fun _ => false) (fun _ => true)
        (.ok [⟨20, "a".data, some 5⟩, ⟨21, "b".data, some 3⟩]) 0 0 0 1 false
        freshSimState ⟨[], [21]⟩).1).mergeCount = 0
    ∧ ((processAndMergeTagsOptimized (fun _ _ => 1) (fun _ _ => [])
        (fun _ => false) (fun _ => true)
        (.ok [⟨20, "a".data, some 5⟩, ⟨21, "b".data, some 3⟩]) 0 0 0 1 false
        freshSimState ⟨[], [21]⟩).1).mergeDetails = [] := by
  have hg : findSimilarEntitiesOptimizedG (diceScorer (fun _ _ => 1)) (fun _ _ => [])
      [⟨20, "a".data, some 5⟩, ⟨21, "b".data, some 3⟩] 1 false freshSimState
      = ([[⟨20, "a".data, some 5⟩, ⟨21, "b".data, some 3⟩]],
         ⟨[("a::b".data, 1)], none, none, 0, 1, 1⟩) := by decide
  have hsort : sortGroupsByDocCount
      [[(⟨20, "a".data, some 5⟩ : Entity), ⟨21, "b".data, some 3⟩]]
      = [[⟨20, "a".data, some 5⟩, ⟨21, "b".data, some 3⟩]] := by
    simp [sortGroupsByDocCount, List.mergeSort]
  have hpg : processGroups (fun _ => false) (fun _ => true)
      [[⟨20, "a".data, some 5⟩, ⟨21, "b".data, some 3⟩]] ⟨[], [21]⟩
      = (0, [], ⟨[], [21]⟩) := by decide
  refine ⟨by decide, ?_, ?_, ?_⟩
  · simp only [processAndMergeTagsOptimized, resetPerformance, hg, hsort, hpg]
  · simp only [processAndMergeTagsOptimized, resetPerformance, hg, hsort, hpg]
  · simp only [processAndMergeTagsOptimized, resetPerformance, hg, hsort, hpg]
